import Mathlib

/-!
# Popcorn Movies: a verification development of `src/App.js`

The development embeds the parts of `App.js` the specification speaks about:

* the JavaScript Number arithmetic used by `average` and `WatchedSummary`
  (IEEE-754 binary64 with round-to-nearest-even, `ToNumber` on strings,
  `Number.prototype.toFixed(1)`),
* the watchlist operations `handleAddWatched`, `handleRemoving` and the
  persistence effect,
* the selection handlers `handleSelectMovie` and `handleCloseMovie`,
* the search effect of `App` with `fetchMovies`, as an event-driven state
  machine (effect run, effect cleanup, settlement of a lookup),
* the `MovieDetails` component, as an event-driven state machine.
-/

set_option exponentiation.threshold 100000
set_option maxRecDepth 4000

namespace Popcorn

/-! ## JavaScript numbers

A finite binary64 value is an integer multiple of `2^(-1074)`, the smallest
positive subnormal.  `JSNum.fin k` is the value `k * 2^(-1074)`; every
operation rounds its exact result to the nearest representable value, ties
to even.  The sign of zero is not tracked (`-0` is `fin 0`). -/

/-- A JavaScript Number: NaN, an infinity, or a finite value in units of `2^(-1074)`. -/
inductive JSNum
  | nan
  | inf (neg : Bool)
  | fin (k : Int)
  deriving DecidableEq, Repr

/-- The number 1 in units of `2^(-1074)`. -/
def unit : Nat := 2 ^ 1074

/-- The value `2^1024` in units: a rounded magnitude that reaches it overflows. -/
def overflowBound : Nat := 2 ^ 2098

/-- The exponents `1, 2, 4, ...` whose power of two does not exceed `n`, largest first. -/
def growExps : Nat → Nat → Nat → List Nat → List Nat
  | 0, _, _, acc => acc
  | fuel + 1, n, p, acc => if 2 ^ p ≤ n then growExps fuel n (2 * p) (p :: acc) else acc

/-- Binary search for the position of the leading bit. -/
def shrinkLog : List Nat → Nat → Nat → Nat
  | [], _, acc => acc
  | p :: ps, n, acc =>
    if 2 ^ p ≤ n then shrinkLog ps (n / 2 ^ p) (acc + p) else shrinkLog ps n acc

/-- Number of binary digits of `n` (0 for 0). -/
def bitLength (n : Nat) : Nat :=
  if n = 0 then 0 else shrinkLog (growExps n n 1 []) n 0 + 1

/-- The integer nearest to `n / d`, ties to the even one. -/
def roundNearestEven (n d : Nat) : Nat :=
  let q := n / d
  let r := n % d
  if 2 * r < d then q else if d < 2 * r then q + 1 else if q % 2 = 0 then q else q + 1

/-- The binary64 magnitude, in units, nearest to `n / d` units: at most 53
significant bits, and a whole number of units (gradual underflow). -/
def roundUnits (n d : Nat) : Nat :=
  let s := bitLength (n / d) - 53
  roundNearestEven n (d * 2 ^ s) * 2 ^ s

/-- Round the exact value `± n / d` units to a JavaScript Number. -/
def fl (neg : Bool) (n d : Nat) : JSNum :=
  let u := roundUnits n d
  if overflowBound ≤ u then .inf neg else .fin (if neg then -(u : Int) else (u : Int))

/-- The Number nearest to the fraction `n / d`. -/
def JSNum.ofFrac (n d : Nat) : JSNum := fl false (n * unit) d

/-- The Number for a natural number such as an array length. -/
def JSNum.ofNat (n : Nat) : JSNum := JSNum.ofFrac n 1

/-- JavaScript `x + y` on Numbers. -/
def JSNum.add : JSNum → JSNum → JSNum
  | .nan, _ => .nan
  | _, .nan => .nan
  | .inf a, .inf b => if a = b then .inf a else .nan
  | .inf a, .fin _ => .inf a
  | .fin _, .inf b => .inf b
  | .fin a, .fin b => fl (decide (a + b < 0)) (a + b).natAbs 1

/-- JavaScript `x / y` on Numbers. -/
def JSNum.div : JSNum → JSNum → JSNum
  | .nan, _ => .nan
  | _, .nan => .nan
  | .inf _, .inf _ => .nan
  | .inf a, .fin b => .inf (a != decide (b < 0))
  | .fin _, .inf _ => .fin 0
  | .fin a, .fin b =>
    if b = 0 then (if a = 0 then .nan else .inf (decide (a < 0)))
    else fl (decide (a < 0) != decide (b < 0)) (a.natAbs * unit) b.natAbs

/-- JavaScript `x > 0` on Numbers. -/
def JSNum.isPositive : JSNum → Bool
  | .nan => false
  | .inf neg => !neg
  | .fin k => decide (0 < k)

/-- The exact rational value of a finite Number (0 for the others). -/
def JSNum.toRat : JSNum → ℚ
  | .fin k => (k : ℚ) / ((unit : Nat) : ℚ)
  | _ => 0

/-- A Number is finite. -/
def JSNum.isFinite : JSNum → Bool
  | .fin _ => true
  | _ => false

/-! ## Strings to numbers (`ToNumber` applied to a String) -/

/-- The code points of `StrWhiteSpaceChar`. -/
def isStrWhiteSpace (c : Char) : Bool :=
  c.toNat ∈ [0x09, 0x0A, 0x0B, 0x0C, 0x0D, 0x20, 0xA0, 0x1680, 0x2000, 0x2001, 0x2002,
    0x2003, 0x2004, 0x2005, 0x2006, 0x2007, 0x2008, 0x2009, 0x200A, 0x2028, 0x2029,
    0x202F, 0x205F, 0x3000, 0xFEFF]

/-- Strip white space from both ends. -/
def trimWhiteSpace (s : List Char) : List Char :=
  ((s.dropWhile isStrWhiteSpace).reverse.dropWhile isStrWhiteSpace).reverse

/-- The value of a digit in the given radix (letters count from 10). -/
def digitValue (radix : Nat) (c : Char) : Option Nat :=
  let v :=
    if '0' ≤ c ∧ c ≤ '9' then c.toNat - '0'.toNat
    else if 'a' ≤ c ∧ c ≤ 'f' then c.toNat - 'a'.toNat + 10
    else if 'A' ≤ c ∧ c ≤ 'F' then c.toNat - 'A'.toNat + 10
    else radix
  if v < radix then some v else none

/-- Read a maximal run of digits: the accumulated value, the number of digits read, the rest. -/
def takeDigits (radix : Nat) : List Char → Nat → Nat → Nat × Nat × List Char
  | [], v, n => (v, n, [])
  | c :: cs, v, n =>
    match digitValue radix c with
    | some d => takeDigits radix cs (radix * v + d) (n + 1)
    | none => (v, n, c :: cs)

/-- The Number for `± m * 10^x`. -/
def decimalValue (neg : Bool) (m : Nat) (x : Int) : JSNum :=
  if 0 ≤ x then fl neg (m * 10 ^ x.toNat * unit) 1
  else fl neg (m * unit) (10 ^ (-x).toNat)

/-- An optional `ExponentPart` that must reach the end of the text. -/
def parseExponent : List Char → Option Int
  | [] => some 0
  | c :: cs =>
    if c = 'e' ∨ c = 'E' then
      let (neg, ds) :=
        match cs with
        | '+' :: r => (false, r)
        | '-' :: r => (true, r)
        | _ => (false, cs)
      match takeDigits 10 ds 0 0 with
      | (v, n, []) => if n = 0 then none else some (if neg then -(v : Int) else (v : Int))
      | _ => none
    else none

/-- The grammar `StrUnsignedDecimalLiteral`. -/
def parseUnsignedDecimal (neg : Bool) (s : List Char) : Option JSNum :=
  if s = "Infinity".data then some (.inf neg) else
  match takeDigits 10 s 0 0 with
  | (i, ni, '.' :: r) =>
    match takeDigits 10 r i 0 with
    | (m, nf, r2) =>
      if ni = 0 ∧ nf = 0 then none
      else (parseExponent r2).map (fun x => decimalValue neg m (x - (nf : Int)))
  | (i, ni, r) =>
    if ni = 0 then none else (parseExponent r).map (fun x => decimalValue neg i x)

/-- The grammar `NonDecimalIntegerLiteral` (`0x`, `0o`, `0b`). -/
def parseNonDecimal : List Char → Option JSNum
  | '0' :: c :: ds =>
    let radix : Nat :=
      if c = 'x' ∨ c = 'X' then 16 else if c = 'o' ∨ c = 'O' then 8
      else if c = 'b' ∨ c = 'B' then 2 else 0
    if radix = 0 then none else
    match takeDigits radix ds 0 0 with
    | (v, n, []) => if n = 0 then none else some (JSNum.ofNat v)
    | _ => none
  | _ => none

/-- JavaScript `StringToNumber`: the empty or blank text is 0, a numeric literal
is its rounded value, anything else is NaN. -/
def stringToNumber (s : String) : JSNum :=
  let t := trimWhiteSpace s.data
  if t = [] then .fin 0 else
  match parseNonDecimal t with
  | some v => v
  | none =>
    let r :=
      match t with
      | '+' :: u => parseUnsignedDecimal false u
      | '-' :: u => parseUnsignedDecimal true u
      | _ => parseUnsignedDecimal false t
    r.getD .nan

/-! ## JavaScript values -/

/-- The primitive values a record field can hold. -/
inductive JSVal
  | undefined
  | null
  | bool (b : Bool)
  | num (n : JSNum)
  | str (s : String)
  deriving DecidableEq, Repr

/-- JavaScript `ToNumber`. -/
def toNumber : JSVal → JSNum
  | .undefined => .nan
  | .null => .fin 0
  | .bool b => if b then JSNum.ofNat 1 else .fin 0
  | .num n => n
  | .str s => stringToNumber s

/-! ## Numbers to strings -/

/-- The decimal digits of a natural number. -/
def decimalDigits (n : Nat) : List Char := Nat.toDigits 10 n

/-- The shortest decimal significand `s` and the exponent `n` with `s * 10^(n-k)`
rounding to the magnitude `u` (an integer value of at least `10^21`), `k` being the
number of digits of `s`: the digits `Number::toString` prints. -/
def shortestDigits (u : Nat) : Nat × Nat :=
  let x := u / unit
  let nd := (decimalDigits x).length
  let pick : Nat → Option (Nat × Nat) := fun i =>
    let k := i + 1
    let p := 10 ^ (nd - k)
    let lo := x / p
    let okLo := decide (roundUnits (lo * p * unit) 1 = u)
    let okHi := decide (roundUnits ((lo + 1) * p * unit) 1 = u)
    let dLo := x - lo * p
    let dHi := (lo + 1) * p - x
    let useHi := okHi && (!okLo || decide (dHi < dLo) || (decide (dHi = dLo) && decide (lo % 2 = 1)))
    if useHi then
      (if lo + 1 = 10 ^ k then some (10 ^ (k - 1), nd + 1) else some (lo + 1, nd))
    else if okLo then some (lo, nd) else none
  ((List.range 17).findSome? pick).getD (x, nd)

/-- The text of `Number::toString` for a finite magnitude of at least `10^21`. -/
def largeToString (u : Nat) : String :=
  let (s, n) := shortestDigits u
  match decimalDigits s with
  | [] => ""
  | d :: rest =>
    String.mk ([d] ++ (if rest = [] then [] else '.' :: rest) ++ ['e', '+'] ++ decimalDigits (n - 1))

/-- JavaScript `x.toFixed(1)`. -/
def toFixed1 : JSNum → String
  | .nan => "NaN"
  | .inf neg => if neg then "-Infinity" else "Infinity"
  | .fin k =>
    let u := k.natAbs
    let sign : List Char := if k < 0 then ['-'] else []
    if 10 ^ 21 * unit ≤ u then String.mk (sign ++ (largeToString u).data)
    else
      let n := (20 * u + unit) / (2 * unit)
      String.mk (sign ++ decimalDigits (n / 10) ++ ['.'] ++ decimalDigits (n % 10))

/-! ## Records -/

/-- One element of the `Search` array of the Directory. -/
structure Movie where
  imdbID : String
  Title : String
  Year : String
  Poster : String
  deriving DecidableEq, Repr

/-- A detail record of the Directory and, with `passedRate` set, a watched entry.
The Directory sends its fields as strings; a field that is absent from the
object (or null) is `none`.  The two fields that `average` divides,
`imdbRating` and `passedRate`, hold any primitive value. -/
structure MovieRecord where
  imdbID : Option String
  Title : Option String
  Poster : Option String
  Released : Option String
  Runtime : Option String
  Genre : Option String
  imdbRating : JSVal
  Plot : Option String
  Actors : Option String
  Director : Option String
  passedRate : JSVal
  deriving DecidableEq, Repr

/-! ## `average` and `WatchedSummary` -/

/-- The function
`(arr) => arr.reduce((acc, cur, i, arr) => acc + cur / arr.length, 0)`. -/
def average (arr : List JSVal) : JSNum :=
  arr.foldl (fun acc cur => acc.add ((toNumber cur).div (JSNum.ofNat arr.length))) (.fin 0)

/-- The element 0 of `s.split(" ")`: the text before the first space. -/
def splitFirst (s : String) : String := String.mk (s.data.takeWhile (fun c => c != ' '))

/-- The expression `+(movie.Runtime?.split(" ")[0] ?? 0)`. -/
def runtimeValue (movie : MovieRecord) : JSNum :=
  match movie.Runtime with
  | none => toNumber (.num (.fin 0))
  | some r => toNumber (.str (splitFirst r))

/-- What `WatchedSummary` puts on the screen. -/
structure Summary where
  count : Nat
  avgImdbRating : String
  avgUserRating : String
  avgRuntime : String
  deriving DecidableEq, Repr

/-- The component `WatchedSummary`. -/
def WatchedSummary (watched : List MovieRecord) : Summary where
  count := watched.length
  avgImdbRating := toFixed1 (average (watched.map (fun movie => movie.imdbRating)))
  avgUserRating := toFixed1 (average (watched.map (fun movie => movie.passedRate)))
  avgRuntime := toFixed1 (average (watched.map (fun movie => JSVal.num (runtimeValue movie))))

/-! ## The watchlist: `handleAddWatched`, `handleRemoving`, persistence -/

/-- The updater of `handleAddWatched`: `(watched) => [...watched, movie]`. -/
def handleAddWatched (movie : MovieRecord) (watched : List MovieRecord) : List MovieRecord :=
  watched ++ [movie]

/-- The updater of `handleRemoving`: `(watched) => watched.filter((el) => el.imdbID !== id)`.
The id is the `imdbID` of the entry whose button was pressed, so it may be absent. -/
def handleRemoving (id : Option String) (watched : List MovieRecord) : List MovieRecord :=
  watched.filter (fun el => el.imdbID != id)

/-- The browser storage: the value kept under each key. -/
abbrev Storage := String → Option String

/-- The call `localStorage.setItem(key, value)`. -/
def Storage.setItem (store : Storage) (key value : String) : Storage :=
  fun k => if k = key then some value else store k

/-- The watchlist state of `App` together with the storage it mirrors into. -/
structure WatchlistState where
  watched : List MovieRecord
  storage : Storage

/-- The persistence effect, run after every change of `watched`:
`localStorage.setItem("WatchedLocSto", JSON.stringify(watched))`.
`stringify` stands for `JSON.stringify`. -/
def persistEffect (stringify : List MovieRecord → String) (s : WatchlistState) : WatchlistState :=
  { s with storage := s.storage.setItem "WatchedLocSto" (stringify s.watched) }

/-- A call of `handleAddWatched` followed by the re-render and its effect. -/
def addWatched (stringify : List MovieRecord → String) (movie : MovieRecord)
    (s : WatchlistState) : WatchlistState :=
  persistEffect stringify { s with watched := handleAddWatched movie s.watched }

/-- A call of `handleRemoving` followed by the re-render and its effect. -/
def removeWatched (stringify : List MovieRecord → String) (id : Option String)
    (s : WatchlistState) : WatchlistState :=
  persistEffect stringify { s with watched := handleRemoving id s.watched }

/-- The ids of a watchlist: `watched.map((el) => el.imdbID)`. -/
def watchedIds (watched : List MovieRecord) : List (Option String) :=
  watched.map (fun el => el.imdbID)

/-! ## Selection -/

/-- The function `handleSelectMovie`: the next value of `selectedId`. -/
def handleSelectMovie (id : String) (selectedId : Option String) : Option String :=
  if some id = selectedId then none else some id

/-! ## The search effect of `App`

The state of `App` that the effect touches, the lookups that `fetchMovies`
has started and that have not settled, and the three kinds of event: the
query changes (cleanup of the previous effect, then the effect body), the
component is torn down (cleanup), a lookup settles (the rest of
`fetchMovies` after its `await`s). -/

/-- The fixed message of the `catch` branch. -/
def errorMessage : String := "Movie not found or something went wrong !!"

/-- The fixed document title. -/
def appTitle : String := "Popcorn Movies"

/-- The state variables of `App` that the search effect reads or writes.
`movies = none` is the value `undefined`. -/
structure AppState where
  query : String
  isLoading : Bool
  error : String
  movies : Option (List Movie)
  selectedId : Option String
  title : String
  deriving DecidableEq, Repr

/-- The state of `App` on mount. -/
def AppState.init : AppState :=
  { query := "", isLoading := false, error := "", movies := some [], selectedId := none,
    title := "" }

/-- The function `handleCloseMovie`. -/
def handleCloseMovie (s : AppState) : AppState :=
  { s with selectedId := none, title := appTitle }

/-- The body `data` of a search answer: the fields `Response` and `Search`. -/
structure SearchData where
  Response : Option String
  Search : Option (List Movie)
  deriving DecidableEq, Repr

/-- How the network answers a lookup: the `fetch` promise rejects, or it
resolves with a response whose `ok` flag is given and whose `json()` either
rejects (`none`) or yields the data. -/
inductive FetchOutcome
  | rejected
  | response (ok : Bool) (body : Option SearchData)
  deriving DecidableEq, Repr

/-- The synchronous start of `fetchMovies`, up to the first `await`. -/
def fetchMoviesStart (s : AppState) : AppState :=
  { s with isLoading := true, error := "" }

/-- The rest of `fetchMovies` once its promise chain settles: the `try` body
after the `await`s, the `catch` branch, and the `finally` branch. -/
def fetchMoviesSettle (o : FetchOutcome) (s : AppState) : AppState :=
  let afterTry : AppState :=
    match o with
    | .response true (some data) =>
      if data.Response = some "False" then { s with error := errorMessage, movies := some [] }
      else { s with movies := data.Search }
    | _ => { s with error := errorMessage, movies := some [] }
  { afterTry with isLoading := false }

/-- A lookup started by `fetchMovies`: whether its `AbortController` was aborted
and whether it has settled. -/
structure Lookup where
  aborted : Bool
  settled : Bool
  deriving DecidableEq, Repr

/-- The component with its lookups, in the order they were started.
`cleanup` is the index of the lookup that the cleanup function of the last
effect run aborts, if that run returned one. -/
structure Sys where
  app : AppState
  mounted : Bool
  lookups : List Lookup
  cleanup : Option Nat
  deriving DecidableEq, Repr

/-- The component right after mounting: the effect has run once with the empty query. -/
def Sys.init : Sys :=
  { app := AppState.init, mounted := true, lookups := [], cleanup := none }

/-- Mark lookup `i` as aborted: `controller.abort()`. -/
def abortLookup : Nat → List Lookup → List Lookup
  | _, [] => []
  | 0, l :: ls => { l with aborted := true } :: ls
  | i + 1, l :: ls => l :: abortLookup i ls

/-- Mark lookup `i` as settled. -/
def markSettled : Nat → List Lookup → List Lookup
  | _, [] => []
  | 0, l :: ls => { l with settled := true } :: ls
  | i + 1, l :: ls => l :: markSettled i ls

/-- Run the cleanup function the last effect run returned, if any. -/
def runCleanup (sys : Sys) : Sys :=
  match sys.cleanup with
  | none => sys
  | some i => { sys with lookups := abortLookup i sys.lookups, cleanup := none }

/-- The query changes to `q`: React re-renders, runs the cleanup of the previous
effect run and then the effect body with the new query. -/
def setQuery (q : String) (sys : Sys) : Sys :=
  if !sys.mounted || q = sys.app.query then sys else
  let sys1 := runCleanup sys
  let app1 : AppState := { sys1.app with query := q }
  if q.length = 0 then
    { sys1 with app := { app1 with error := "", movies := some [] }, cleanup := none }
  else
    { sys1 with
      app := fetchMoviesStart (handleCloseMovie app1)
      lookups := sys1.lookups ++ [{ aborted := false, settled := false }]
      cleanup := some sys1.lookups.length }

/-- The component is torn down: the cleanup runs and state updates no longer apply. -/
def unmount (sys : Sys) : Sys :=
  { runCleanup sys with mounted := false }

/-- What the promise chain of a lookup settles with: an aborted `fetch` (or
the `json()` of an aborted response) rejects, whatever the network did. -/
def effectiveOutcome (l : Lookup) (o : FetchOutcome) : FetchOutcome :=
  if l.aborted then .rejected else o

/-- The render that follows a state change.  `NumResults` reads `movies.length`,
which throws when `movies` is `undefined`; there is no error boundary, so React
removes the whole tree, running the cleanup of the effect. -/
def renderApp (sys : Sys) : Sys :=
  if sys.mounted && sys.app.movies.isNone then unmount sys else sys

/-- Lookup `i` settles, the network having answered `o`: the rest of
`fetchMovies` runs and the component renders again. -/
def settle (i : Nat) (o : FetchOutcome) (sys : Sys) : Sys :=
  match sys.lookups.get? i with
  | none => sys
  | some l =>
    if l.settled then sys else
    renderApp
      { sys with
        lookups := markSettled i sys.lookups
        app := if sys.mounted then fetchMoviesSettle (effectiveOutcome l o) sys.app
               else sys.app }

/-- A click on a movie of the result list. -/
def selectMovie (id : String) (sys : Sys) : Sys :=
  if sys.mounted then
    { sys with app := { sys.app with selectedId := handleSelectMovie id sys.app.selectedId } }
  else sys

/-- What can happen to the search controller: the query changes, a lookup
settles, a movie of the result list is clicked, the component is torn down. -/
inductive SearchEvent
  | query (q : String)
  | settled (i : Nat) (o : FetchOutcome)
  | click (id : String)
  | teardown
  deriving DecidableEq, Repr

/-- One event of the search controller. -/
def Sys.step (sys : Sys) : SearchEvent → Sys
  | .query q => setQuery q sys
  | .settled i o => settle i o sys
  | .click id => selectMovie id sys
  | .teardown => unmount sys

/-- A sequence of events of the search controller. -/
def Sys.run (sys : Sys) (es : List SearchEvent) : Sys :=
  es.foldl Sys.step sys

/-- An event that neither changes the query, nor tears the component down, nor
settles lookup `n`: a click, or the settlement of another lookup. -/
def SearchEvent.leaves (n : Nat) : SearchEvent → Prop
  | .click _ => True
  | .settled i _ => i ≠ n
  | _ => False

/-- The result list is populated: `movies` is a non-empty array. -/
def resultsPopulated (s : AppState) : Bool :=
  match s.movies with
  | some (_ :: _) => true
  | _ => false

/-- The error is shown: `error` is a non-empty (truthy) string. -/
def errorShown (s : AppState) : Bool := s.error != ""

/-! ## The component `MovieDetails` inside `App`

`MovieDetails` is mounted while `selectedId` is truthy, and it is the same
instance (keeping `shownMovie`, `isLoading`, `passedRate`) when `selectedId`
changes from one id to another.  Its effect starts one detail request per
change of `selectedId`; a request is never cancelled, and its answer is
stored by whichever instance started it, if that instance is still mounted. -/

/-- The empty object `{}`. -/
def emptyRecord : MovieRecord :=
  { imdbID := none, Title := none, Poster := none, Released := none, Runtime := none,
    Genre := none, imdbRating := .undefined, Plot := none, Actors := none, Director := none,
    passedRate := .undefined }

/-- The state of one mounted instance of `MovieDetails`. -/
structure DetailsState where
  inst : Nat
  shownMovie : MovieRecord
  isLoading : Bool
  passedRate : JSVal
  deriving DecidableEq, Repr

/-- The selection, the watchlist, the mounted `MovieDetails` instance and the
detail requests in flight (the instance that started each, and the id asked for). -/
structure UI where
  selectedId : Option String
  watched : List MovieRecord
  details : Option DetailsState
  nextInst : Nat
  pending : List (Nat × String)
  deriving DecidableEq, Repr

/-- The start: nothing selected, an empty watchlist. -/
def UI.init : UI :=
  { selectedId := none, watched := [], details := none, nextInst := 0, pending := [] }

/-- The test `selectedId ? ... : ...`: an id is truthy when it is a non-empty string. -/
def truthyId : Option String → Bool
  | some id => id != ""
  | none => false

/-- The value `isWatched`: `watched.map((el) => el.imdbID).includes(selectedId)`. -/
def isWatched (ui : UI) : Bool :=
  match ui.selectedId with
  | some id => decide (some id ∈ watchedIds ui.watched)
  | none => false

/-- Re-render `App` with a new `selectedId`: unmount, mount or keep the
`MovieDetails` instance, and run its effect when `selectedId` changed. -/
def renderSelection (sel : Option String) (ui : UI) : UI :=
  match sel with
  | none => { ui with selectedId := none, details := none }
  | some id =>
    if !truthyId (some id) then { ui with selectedId := some id, details := none } else
    match ui.details with
    | some d =>
      if some id = ui.selectedId then ui
      else { ui with selectedId := some id, details := some { d with isLoading := true },
                     pending := ui.pending ++ [(d.inst, id)] }
    | none =>
      { ui with selectedId := some id,
                details := some { inst := ui.nextInst, shownMovie := emptyRecord,
                                  isLoading := true, passedRate := .str "" },
                nextInst := ui.nextInst + 1,
                pending := ui.pending ++ [(ui.nextInst, id)] }

/-- Modelled from the spec: the component `StarRating` of `StarRating.js`, which
is not part of the sources at hand.  With `maxRating = 10` a click on star `r`
emits the integer rating `r` (1 to 10) through `setPassedRate`; hovering emits nothing. -/
def starRatingClick (r : Nat) : Option JSVal :=
  if 1 ≤ r ∧ r ≤ 10 then some (.num (JSNum.ofNat r)) else none

/-- The test `passedRate > 0` that shows the add button. -/
def addOffered (d : DetailsState) : Bool := (toNumber d.passedRate).isPositive

/-- What the user and the network can do to the detail view and the watchlist. -/
inductive UIEvent
  | select (id : String)
  | close
  | response (i : Nat)
  | rate (r : Nat)
  | add
  | remove (id : Option String)
  deriving DecidableEq, Repr

/-- One event; `none` when the interface does not offer it in this state.
`directory id` is the detail record the Directory returns for `id`
(`none` when the request fails, in which case nothing is stored).

* `select`: a click on a movie of the result list, `handleSelectMovie`;
* `close`: `handleCloseMovie` (the back button, or a new non-empty query);
* `response i`: the `i`-th detail request in flight is answered;
* `rate r`: a click on star `r`, shown while not loading and not watched;
* `add`: the button shown while not loading, not watched and `passedRate > 0`:
  `handleAddWatched({ ...shownMovie, passedRate })` then `handleCloseMovie()`;
* `remove id`: the button of a watched entry, shown while nothing is selected. -/
def UI.step (directory : String → Option MovieRecord) (ui : UI) : UIEvent → Option UI
  | .select id => some (renderSelection (handleSelectMovie id ui.selectedId) ui)
  | .close => some (renderSelection none ui)
  | .response i =>
    match ui.pending.get? i with
    | none => none
    | some (inst, id) =>
      let ui1 := { ui with pending := ui.pending.eraseIdx i }
      match directory id, ui.details with
      | some data, some d =>
        if d.inst = inst then
          some { ui1 with details := some { d with shownMovie := data, isLoading := false } }
        else some ui1
      | _, _ => some ui1
  | .rate r =>
    match ui.details, starRatingClick r with
    | some d, some v =>
      if !d.isLoading && !isWatched ui then some { ui with details := some { d with passedRate := v } }
      else none
    | _, _ => none
  | .add =>
    match ui.details with
    | some d =>
      if !d.isLoading && !isWatched ui && addOffered d then
        some (renderSelection none
          { ui with watched := handleAddWatched { d.shownMovie with passedRate := d.passedRate } ui.watched })
      else none
    | none => none
  | .remove id =>
    if !truthyId ui.selectedId && decide (id ∈ watchedIds ui.watched) then
      some { ui with watched := handleRemoving id ui.watched }
    else none

/-- A sequence of events, each offered in the state the previous ones produce. -/
def UI.run (directory : String → Option MovieRecord) : UI → List UIEvent → Option UI
  | ui, [] => some ui
  | ui, e :: es =>
    match UI.step directory ui e with
    | some ui1 => UI.run directory ui1 es
    | none => none

/-- A Directory that answers every id with a record carrying that id. -/
def sampleDirectory (id : String) : Option MovieRecord :=
  some { emptyRecord with imdbID := some id, Title := some id, imdbRating := .str "8.0",
                          Runtime := some "140 min" }

/-- A watched entry with the fields the summary reads. -/
def sampleEntry (id rating : String) (rate : Nat) (runtime : Option String) : MovieRecord :=
  { emptyRecord with imdbID := some id, imdbRating := .str rating,
                     passedRate := .num (JSNum.ofNat rate), Runtime := runtime }

/-- The single result of the search for "batman" in the specification. -/
def batmanBegins : Movie :=
  { imdbID := "tt0372784", Title := "Batman Begins", Year := "2005", Poster := "N/A" }

/-! ## Auxiliary notions for the statements -/

/-- A decimal digit character. -/
def isDecimalDigit (c : Char) : Bool := decide ('0' ≤ c ∧ c ≤ '9')

/-- The natural number that a list of decimal digits denotes. -/
def natOfDigits (ds : List Char) : Nat :=
  ds.foldl (fun v c => 10 * v + (c.toNat - '0'.toNat)) 0

/-- The Number is `+Infinity` or a finite Number that is not negative. -/
def JSNum.nonNeg : JSNum → Prop
  | .nan => False
  | .inf neg => neg = false
  | .fin k => 0 ≤ k

/-- The Runtime field is missing, or it starts with a decimal numeral that ends
the text or is followed by a space. -/
def runtimeWellFormed (movie : MovieRecord) : Prop :=
  movie.Runtime = none ∨
  ∃ ds rest : List Char, ds ≠ [] ∧ (∀ c ∈ ds, isDecimalDigit c = true) ∧
    (rest = [] ∨ ∃ r, rest = ' ' :: r) ∧ movie.Runtime = some (String.mk (ds ++ rest))

/-- The mean as the specification words it, in Number arithmetic:
(sum of the values) / (number of entries). -/
def sumThenDivide (arr : List JSVal) : JSNum :=
  JSNum.div (arr.foldl (fun (acc : JSNum) cur => acc.add (toNumber cur)) (JSNum.fin 0))
    (JSNum.ofNat arr.length)

/-- The finite value of a field in units of `2^(-1074)` (0 when it is not finite). -/
def unitsOf (v : JSVal) : Int :=
  match toNumber v with
  | .fin k => k
  | _ => 0

/-- The watchlist of the example in the specification. -/
def exampleWatchlist : List MovieRecord :=
  [sampleEntry "tt1" "8.0" 7 (some "140 min"), sampleEntry "tt2" "7.0" 9 (some "100 min")]

/-- Six watched movies rated 9.3, 7.3, 3.1, 5.7, 8.0 and 9.5: the mean is 42.9 / 6 = 7.15. -/
def sixRatings : List MovieRecord :=
  [sampleEntry "tt1" "9.3" 7 none, sampleEntry "tt2" "7.3" 7 none, sampleEntry "tt3" "3.1" 7 none,
   sampleEntry "tt4" "5.7" 7 none, sampleEntry "tt5" "8.0" 7 none, sampleEntry "tt6" "9.5" 7 none]

/-- Two watched movies rated 8.0 and 8.1 by the Directory and 7 and 8 by the
user, lasting 100 and 101 minutes. -/
def pairRatings : List MovieRecord :=
  [sampleEntry "tt1" "8.0" 7 (some "100 min"), sampleEntry "tt2" "8.1" 8 (some "101 min")]

/-! ## Theorems: the watchlist -/

theorem mem_handleRemoving {id : Option String} {w : List MovieRecord} {e : MovieRecord} :
    e ∈ handleRemoving id w ↔ e ∈ w ∧ e.imdbID ≠ id := by
  simp [handleRemoving, List.mem_filter]

theorem handleRemoving_eq_self {id : Option String} {w : List MovieRecord}
    (h : ∀ e ∈ w, e.imdbID ≠ id) : handleRemoving id w = w := by
  unfold handleRemoving
  rw [List.filter_eq_self]
  intro e he
  simpa using h e he

/-- Claim C4: `handleRemoving id` is a filter on the id.  The result has no entry
with that id; every entry with another id occurs in it as often as in the
watchlist; the result is a sublist of the watchlist, so the relative order is
kept; and the watchlist is returned unchanged when no entry has the id. -/
theorem handleRemoving_filters_by_id (w : List MovieRecord) (id : Option String) :
    (∀ e ∈ handleRemoving id w, e.imdbID ≠ id) ∧
    (∀ e : MovieRecord, e.imdbID ≠ id → (handleRemoving id w).count e = w.count e) ∧
    (handleRemoving id w).Sublist w ∧
    ((∀ e ∈ w, e.imdbID ≠ id) → handleRemoving id w = w) := by
  refine ⟨fun e he => (mem_handleRemoving.mp he).2, ?_, ?_, handleRemoving_eq_self⟩
  · intro e he
    unfold handleRemoving
    rw [List.count_filter]
    simpa using he
  · exact List.filter_sublist w

/-- Claim C3, as stated, fails: adding an entry whose id is already in the
watchlist and then removing that id also removes the older entry. -/
theorem add_then_remove_loses_duplicate :
    handleRemoving (sampleEntry "tt1" "8.0" 7 (some "140 min")).imdbID
        (handleAddWatched (sampleEntry "tt1" "8.0" 7 (some "140 min"))
          [sampleEntry "tt1" "8.0" 7 (some "140 min")])
      ≠ [sampleEntry "tt1" "8.0" 7 (some "140 min")] := by
  decide

/-- Claim C3, amended: when no entry of the watchlist has the id of the added
entry, `addWatched` followed by `removeWatched` with that id gives back the
watchlist, entry for entry and in order, and the value stored under
"WatchedLocSto" is the serialization of that watchlist. -/
theorem add_then_remove_restores (stringify : List MovieRecord → String)
    (w : List MovieRecord) (e : MovieRecord) (store : Storage)
    (h : ∀ x ∈ w, x.imdbID ≠ e.imdbID) :
    (removeWatched stringify e.imdbID
        (addWatched stringify e { watched := w, storage := store })).watched = w ∧
    (removeWatched stringify e.imdbID
        (addWatched stringify e { watched := w, storage := store })).storage "WatchedLocSto"
      = some (stringify w) := by
  have hw : handleRemoving e.imdbID (handleAddWatched e w) = w := by
    unfold handleAddWatched handleRemoving
    rw [List.filter_append, List.filter_eq_self.mpr (fun x hx => by simpa using h x hx)]
    simp
  simp [removeWatched, addWatched, persistEffect, Storage.setItem, hw]

/-- The amended claim C3 at a watchlist of one entry and a new entry with another id. -/
theorem add_then_remove_restores_witness :
    (removeWatched (fun l => toString l.length) (sampleEntry "tt2" "7.0" 9 none).imdbID
        (addWatched (fun l => toString l.length) (sampleEntry "tt2" "7.0" 9 none)
          { watched := [sampleEntry "tt1" "8.0" 7 none], storage := fun _ => none })).watched
      = [sampleEntry "tt1" "8.0" 7 none] ∧
    (removeWatched (fun l => toString l.length) (sampleEntry "tt2" "7.0" 9 none).imdbID
        (addWatched (fun l => toString l.length) (sampleEntry "tt2" "7.0" 9 none)
          { watched := [sampleEntry "tt1" "8.0" 7 none], storage := fun _ => none })).storage
        "WatchedLocSto"
      = some ((fun l : List MovieRecord => toString l.length) [sampleEntry "tt1" "8.0" 7 none]) :=
  add_then_remove_restores (fun l => toString l.length) [sampleEntry "tt1" "8.0" 7 none]
    (sampleEntry "tt2" "7.0" 9 none) (fun _ => none) (by decide)

/-! ## Theorems: selection -/

/-- Claim C10: `handleSelectMovie X` clears the selection when `X` is the selected
id and selects `X` otherwise, whether nothing or another id was selected; so
selecting an id that is not selected twice in a row ends with no selection. -/
theorem handleSelectMovie_toggles (X : String) (s : Option String) :
    (s = some X → handleSelectMovie X s = none) ∧
    (s ≠ some X → handleSelectMovie X s = some X) ∧
    (s ≠ some X → handleSelectMovie X (handleSelectMovie X s) = none) ∧
    handleSelectMovie X (handleSelectMovie X none) = none := by
  refine ⟨?_, ?_, ?_, ?_⟩
  · intro h
    simp [handleSelectMovie, h]
  · intro h
    have h2 : ¬ (some X = s) := fun e => h e.symm
    simp [handleSelectMovie, h2]
  · intro h
    have h2 : ¬ (some X = s) := fun e => h e.symm
    simp [handleSelectMovie, h2]
  · simp [handleSelectMovie]

/-! ## Theorems: the search effect -/

theorem length_abortLookup (i : Nat) (ls : List Lookup) :
    (abortLookup i ls).length = ls.length := by
  induction ls generalizing i with
  | nil => cases i <;> rfl
  | cons l ls ih =>
    cases i with
    | zero => rfl
    | succ i => simp [abortLookup, ih]

theorem length_markSettled (i : Nat) (ls : List Lookup) :
    (markSettled i ls).length = ls.length := by
  induction ls generalizing i with
  | nil => cases i <;> rfl
  | cons l ls ih =>
    cases i with
    | zero => rfl
    | succ i => simp [markSettled, ih]

theorem runCleanup_length (sys : Sys) : (runCleanup sys).lookups.length = sys.lookups.length := by
  unfold runCleanup
  cases sys.cleanup <;> simp [length_abortLookup]

theorem runCleanup_mounted (sys : Sys) : (runCleanup sys).mounted = sys.mounted := by
  unfold runCleanup
  cases sys.cleanup <;> rfl

theorem runCleanup_app (sys : Sys) : (runCleanup sys).app = sys.app := by
  unfold runCleanup
  cases sys.cleanup <;> rfl

/-- A non-empty query starts a lookup: the state right after the effect, and the
new lookup, which is the last one, neither aborted nor settled. -/
theorem setQuery_nonempty (sys : Sys) (q : String)
    (hm : sys.mounted = true) (hq : q.length ≠ 0) (hne : q ≠ sys.app.query) :
    (setQuery q sys).app =
        fetchMoviesStart (handleCloseMovie { sys.app with query := q }) ∧
    (setQuery q sys).mounted = true ∧
    (setQuery q sys).lookups.get? sys.lookups.length
        = some { aborted := false, settled := false } := by
  have hlen := runCleanup_length sys
  simp only [setQuery, hm, hne, hq, runCleanup_app, runCleanup_mounted]
  refine ⟨by simp, by simp, ?_⟩
  simp only [Bool.not_true, Bool.false_or, decide_False, Bool.false_eq_true, if_false]
  rw [← hlen]
  simp

/-- After a lookup settles, whatever the outcome, `isLoading` is false. -/
theorem fetchMoviesSettle_isLoading (o : FetchOutcome) (s : AppState) :
    (fetchMoviesSettle o s).isLoading = false := rfl

theorem abortLookup_settled (i : Nat) (ls : List Lookup)
    (h : ∀ l ∈ ls, l.settled = true) : ∀ l ∈ abortLookup i ls, l.settled = true := by
  induction ls generalizing i with
  | nil => cases i <;> simp [abortLookup]
  | cons x xs ih =>
    have hx : x.settled = true := h x (List.mem_cons_self _ _)
    have hxs : ∀ l ∈ xs, l.settled = true := fun l hl => h l (List.mem_cons_of_mem _ hl)
    cases i with
    | zero =>
      intro l hl
      simp only [abortLookup, List.mem_cons] at hl
      rcases hl with hl | hl
      · subst hl; exact hx
      · exact hxs l hl
    | succ i =>
      intro l hl
      simp only [abortLookup, List.mem_cons] at hl
      rcases hl with hl | hl
      · subst hl; exact hx
      · exact ih i hxs l hl

theorem runCleanup_settled (sys : Sys) (h : ∀ l ∈ sys.lookups, l.settled = true) :
    ∀ l ∈ (runCleanup sys).lookups, l.settled = true := by
  unfold runCleanup
  cases sys.cleanup with
  | none => exact h
  | some i => exact abortLookup_settled i sys.lookups h

/-- While only clicks happen and only other lookups settle, all of them settled
before, the new lookup stays in flight and `isLoading`, `error` and `movies`
stay what the start of `fetchMovies` made them. -/
theorem run_leaves (L : List Lookup) (hL : ∀ l ∈ L, l.settled = true) (a : AppState) :
    ∀ (es : List SearchEvent) (s : Sys), s.mounted = true →
      s.lookups = L ++ [{ aborted := false, settled := false }] →
      s.app.isLoading = a.isLoading → s.app.error = a.error → s.app.movies = a.movies →
      (∀ e ∈ es, SearchEvent.leaves L.length e) →
      (Sys.run s es).mounted = true ∧
      (Sys.run s es).lookups = L ++ [{ aborted := false, settled := false }] ∧
      (Sys.run s es).app.isLoading = a.isLoading ∧ (Sys.run s es).app.error = a.error ∧
      (Sys.run s es).app.movies = a.movies := by
  intro es
  induction es with
  | nil => intro s hm hl h1 h2 h3 _; exact ⟨hm, hl, h1, h2, h3⟩
  | cons e es ih =>
    intro s hm hl h1 h2 h3 hes
    have he : SearchEvent.leaves L.length e := hes e (List.mem_cons_self _ _)
    have hrest : ∀ x ∈ es, SearchEvent.leaves L.length x :=
      fun x hx => hes x (List.mem_cons_of_mem _ hx)
    rw [show Sys.run s (e :: es) = Sys.run (Sys.step s e) es from rfl]
    cases e with
    | query q => exact he.elim
    | teardown => exact he.elim
    | click id =>
      have hs : Sys.step s (.click id)
          = { s with app := { s.app with selectedId := handleSelectMovie id s.app.selectedId } } := by
        simp [Sys.step, selectMovie, hm]
      rw [hs]
      exact ih _ hm hl h1 h2 h3 hrest
    | settled i o =>
      have hi : i ≠ L.length := he
      have hs : Sys.step s (.settled i o) = s := by
        simp only [Sys.step, settle, hl, List.get?_eq_getElem?]
        rcases Nat.lt_or_gt_of_ne hi with hlt | hgt
        · rw [List.getElem?_append_left hlt, List.getElem?_eq_getElem hlt]
          simp [hL _ (List.getElem_mem hlt)]
        · rw [List.getElem?_eq_none (by simp; omega)]
      rw [hs]
      exact ih s hm hl h1 h2 h3 hrest

/-- Claim C2, as stated, fails in two ways.  For an OK answer with `Response`
"True" and an empty `Search` list, after settlement neither the result list
is populated nor the error shown.  And when the query "ab" is set while the
lookup for "a" is in flight, the aborted lookup settles first, and after the
lookup for "ab" has settled with one result the error is the fixed message:
the result list is populated and the error is shown, both. -/
theorem settlement_shows_neither_or_both :
    resultsPopulated (settle 0
        (.response true (some { Response := some "True", Search := some [] }))
        (setQuery "batman" Sys.init)).app = false ∧
    errorShown (settle 0
        (.response true (some { Response := some "True", Search := some [] }))
        (setQuery "batman" Sys.init)).app = false ∧
    (settle 1 (.response true (some { Response := some "True", Search := some [batmanBegins] }))
        (settle 0 .rejected (setQuery "ab" (setQuery "a" Sys.init)))).app.movies
      = some [batmanBegins] ∧
    (settle 1 (.response true (some { Response := some "True", Search := some [batmanBegins] }))
        (settle 0 .rejected (setQuery "ab" (setQuery "a" Sys.init)))).app.error
      = errorMessage ∧
    resultsPopulated (settle 1
        (.response true (some { Response := some "True", Search := some [batmanBegins] }))
        (settle 0 .rejected (setQuery "ab" (setQuery "a" Sys.init)))).app = true ∧
    errorShown (settle 1
        (.response true (some { Response := some "True", Search := some [batmanBegins] }))
        (settle 0 .rejected (setQuery "ab" (setQuery "a" Sys.init)))).app = true := by
  decide

/-- Claim C2, amended: take a mounted component all of whose earlier lookups
have settled, set a new non-empty query, let clicks happen and other lookups
settle in any order (`es`), and let the lookup issued for the query settle
with outcome `o`.  If the Directory answered with a non-empty list `R` (and
`Response` is not "False"), the results are `R`, the error is empty and
`isLoading` is false: the list is populated and no error is shown.  If it
answered `Response = "False"`, or the response was not OK, or `fetch` or
`json()` rejected, the results are the empty list, the error is the fixed
message and `isLoading` is false: the error is shown and the list is not
populated.  If it answered with an empty list (and `Response` is not
"False"), results and error are both empty and `isLoading` is false: neither
is shown.  If the answer has no `Search` list (and `Response` is not
"False"), `undefined` is stored and the next render removes the component. -/
theorem fetchMovies_settlement (sys : Sys) (q : String) (o : FetchOutcome)
    (es : List SearchEvent)
    (hm : sys.mounted = true) (hsettled : ∀ l ∈ sys.lookups, l.settled = true)
    (hq : q.length ≠ 0) (hne : q ≠ sys.app.query)
    (hes : ∀ e ∈ es, SearchEvent.leaves sys.lookups.length e) :
    (∀ (resp : Option String) (R : List Movie),
        o = .response true (some { Response := resp, Search := some R }) →
        resp ≠ some "False" → R ≠ [] →
        (settle sys.lookups.length o (Sys.run (setQuery q sys) es)).mounted = true ∧
        (settle sys.lookups.length o (Sys.run (setQuery q sys) es)).app.movies = some R ∧
        (settle sys.lookups.length o (Sys.run (setQuery q sys) es)).app.error = "" ∧
        (settle sys.lookups.length o (Sys.run (setQuery q sys) es)).app.isLoading = false ∧
        resultsPopulated (settle sys.lookups.length o (Sys.run (setQuery q sys) es)).app = true ∧
        errorShown (settle sys.lookups.length o (Sys.run (setQuery q sys) es)).app = false) ∧
    ((o = .rejected ∨ (∃ b, o = .response false b) ∨ o = .response true none ∨
        (∃ srch, o = .response true (some { Response := some "False", Search := srch }))) →
        (settle sys.lookups.length o (Sys.run (setQuery q sys) es)).mounted = true ∧
        (settle sys.lookups.length o (Sys.run (setQuery q sys) es)).app.movies = some [] ∧
        (settle sys.lookups.length o (Sys.run (setQuery q sys) es)).app.error = errorMessage ∧
        (settle sys.lookups.length o (Sys.run (setQuery q sys) es)).app.isLoading = false ∧
        resultsPopulated (settle sys.lookups.length o (Sys.run (setQuery q sys) es)).app = false ∧
        errorShown (settle sys.lookups.length o (Sys.run (setQuery q sys) es)).app = true) ∧
    (∀ resp : Option String,
        o = .response true (some { Response := resp, Search := some [] }) →
        resp ≠ some "False" →
        (settle sys.lookups.length o (Sys.run (setQuery q sys) es)).mounted = true ∧
        (settle sys.lookups.length o (Sys.run (setQuery q sys) es)).app.movies = some [] ∧
        (settle sys.lookups.length o (Sys.run (setQuery q sys) es)).app.error = "" ∧
        (settle sys.lookups.length o (Sys.run (setQuery q sys) es)).app.isLoading = false ∧
        resultsPopulated (settle sys.lookups.length o (Sys.run (setQuery q sys) es)).app = false ∧
        errorShown (settle sys.lookups.length o (Sys.run (setQuery q sys) es)).app = false) ∧
    (∀ resp : Option String,
        o = .response true (some { Response := resp, Search := none }) →
        resp ≠ some "False" →
        (settle sys.lookups.length o (Sys.run (setQuery q sys) es)).mounted = false) := by
  have hlen := runCleanup_length sys
  have hL := runCleanup_settled sys hsettled
  have hs0 : setQuery q sys =
      { runCleanup sys with
        app := fetchMoviesStart (handleCloseMovie { (runCleanup sys).app with query := q })
        lookups := (runCleanup sys).lookups ++ [{ aborted := false, settled := false }]
        cleanup := some (runCleanup sys).lookups.length } := by
    simp [setQuery, hm, hne, hq]
  have hinv := run_leaves (runCleanup sys).lookups hL
    (fetchMoviesStart (handleCloseMovie { (runCleanup sys).app with query := q }))
    es (setQuery q sys)
    (by rw [hs0]; simp [runCleanup_mounted, hm]) (by rw [hs0]) (by rw [hs0]) (by rw [hs0])
    (by rw [hs0]) (by rw [hlen]; exact hes)
  obtain ⟨hmnt, hlk, h1, h2, h3⟩ := hinv
  generalize Sys.run (setQuery q sys) es = s at hmnt hlk h1 h2 h3
  simp only [fetchMoviesStart, handleCloseMovie, runCleanup_app] at h1 h2 h3
  have hget : s.lookups[sys.lookups.length]? = some { aborted := false, settled := false } := by
    rw [hlk, ← hlen]
    simp
  have he : errorMessage ≠ "" := by decide
  refine ⟨?_, ?_, ?_, ?_⟩
  · intro resp R ho hresp hR
    subst ho
    cases R with
    | nil => exact absurd rfl hR
    | cons m ms =>
      simp [settle, hget, hmnt, effectiveOutcome, fetchMoviesSettle, renderApp, hresp,
        resultsPopulated, errorShown, h2]
  · intro ho
    rcases ho with ho | ⟨b, ho⟩ | ho | ⟨srch, ho⟩ <;> subst ho <;>
      simp [settle, hget, hmnt, effectiveOutcome, fetchMoviesSettle, renderApp,
        resultsPopulated, errorShown, he]
  · intro resp ho hresp
    subst ho
    simp [settle, hget, hmnt, effectiveOutcome, fetchMoviesSettle, renderApp, hresp,
      resultsPopulated, errorShown, h2]
  · intro resp ho hresp
    subst ho
    simp [settle, hget, hmnt, effectiveOutcome, fetchMoviesSettle, renderApp, hresp, unmount,
      runCleanup_mounted]

/-- The amended claim C2 at the search for "batman" of the specification, with a
click on a movie before the lookup settles: one result, no error. -/
theorem fetchMovies_settlement_witness :
    (settle Sys.init.lookups.length
        (.response true (some { Response := some "True", Search := some [batmanBegins] }))
        (Sys.run (setQuery "batman" Sys.init) [.click "tt1"])).mounted = true ∧
    (settle Sys.init.lookups.length
        (.response true (some { Response := some "True", Search := some [batmanBegins] }))
        (Sys.run (setQuery "batman" Sys.init) [.click "tt1"])).app.movies = some [batmanBegins] ∧
    (settle Sys.init.lookups.length
        (.response true (some { Response := some "True", Search := some [batmanBegins] }))
        (Sys.run (setQuery "batman" Sys.init) [.click "tt1"])).app.error = "" ∧
    (settle Sys.init.lookups.length
        (.response true (some { Response := some "True", Search := some [batmanBegins] }))
        (Sys.run (setQuery "batman" Sys.init) [.click "tt1"])).app.isLoading = false ∧
    resultsPopulated (settle Sys.init.lookups.length
        (.response true (some { Response := some "True", Search := some [batmanBegins] }))
        (Sys.run (setQuery "batman" Sys.init) [.click "tt1"])).app = true ∧
    errorShown (settle Sys.init.lookups.length
        (.response true (some { Response := some "True", Search := some [batmanBegins] }))
        (Sys.run (setQuery "batman" Sys.init) [.click "tt1"])).app = false :=
  (fetchMovies_settlement Sys.init "batman"
      (.response true (some { Response := some "True", Search := some [batmanBegins] }))
      [.click "tt1"] (by decide) (by decide) (by decide) (by decide)
      (by intro e he; simp only [List.mem_singleton] at he; subst he; trivial)).1
    (some "True") [batmanBegins] rfl (by decide) (by decide)

/-- The settlement of a lookup that was aborted, in a mounted component: the
`catch` branch and the `finally` branch run, whatever the network answered. -/
theorem settle_aborted (sys : Sys) (i : Nat) (o : FetchOutcome)
    (hm : sys.mounted = true)
    (hl : sys.lookups.get? i = some { aborted := true, settled := false }) :
    (settle i o sys).app =
      { sys.app with error := errorMessage, movies := some [], isLoading := false } := by
  rw [List.get?_eq_getElem?] at hl
  simp [settle, hl, hm, effectiveOutcome, fetchMoviesSettle, renderApp]

/-- Claim C1, evaluated on the code: the query is set to "a" and then to "ab"
before the first lookup settles, so the first lookup is aborted.  When the
aborted lookup settles, `isLoading` becomes false although the second lookup
is still in flight, and the error message is set.  When the second lookup
then settles with one result, the results are stored but the error message
of the first lookup stays, so the state differs from the one that the second
lookup alone produces, where the error is empty. -/
theorem cancelled_lookup_overwrites_state :
    (setQuery "ab" (setQuery "a" Sys.init)).lookups
        = [{ aborted := true, settled := false }, { aborted := false, settled := false }] ∧
    (setQuery "ab" (setQuery "a" Sys.init)).app
        = { query := "ab", isLoading := true, error := "", movies := some [],
            selectedId := none, title := appTitle } ∧
    (settle 0 .rejected (setQuery "ab" (setQuery "a" Sys.init))).app
        = { query := "ab", isLoading := false, error := errorMessage, movies := some [],
            selectedId := none, title := appTitle } ∧
    (settle 1 (.response true (some { Response := some "True", Search := some [batmanBegins] }))
        (settle 0 .rejected (setQuery "ab" (setQuery "a" Sys.init)))).app
        = { query := "ab", isLoading := false, error := errorMessage,
            movies := some [batmanBegins], selectedId := none, title := appTitle } ∧
    (settle 0 (.response true (some { Response := some "True", Search := some [batmanBegins] }))
        (setQuery "ab" Sys.init)).app
        = { query := "ab", isLoading := false, error := "",
            movies := some [batmanBegins], selectedId := none, title := appTitle } := by
  decide

/-- Claim C8, as stated, fails: after the search for "batman" has returned its
result and the movie has been selected, changing the query to the empty
string leaves the movie selected. -/
theorem empty_query_leaves_detail_open :
    (setQuery "" (selectMovie "tt0372784"
        (settle 0 (.response true (some { Response := some "True", Search := some [batmanBegins] }))
          (setQuery "batman" Sys.init)))).app.selectedId = some "tt0372784" := by
  decide

/-- Claim C8, amended: when the query of a mounted component changes to the
empty string, the effect clears the error and the results, starts no lookup
and returns no cleanup, and leaves the selection as it was. -/
theorem setQuery_empty (sys : Sys) (hm : sys.mounted = true) (hq : sys.app.query ≠ "") :
    (setQuery "" sys).app.error = "" ∧
    (setQuery "" sys).app.movies = some [] ∧
    (setQuery "" sys).lookups.length = sys.lookups.length ∧
    (setQuery "" sys).cleanup = none ∧
    (setQuery "" sys).app.selectedId = sys.app.selectedId := by
  have hne : ¬ ("" = sys.app.query) := fun e => hq e.symm
  simp [setQuery, hm, hne, runCleanup_app, runCleanup_length]

/-- The amended claim C8 at the state in which a movie of the "batman" results is selected. -/
theorem setQuery_empty_witness :
    (setQuery "" (selectMovie "tt0372784"
        (settle 0 (.response true (some { Response := some "True", Search := some [batmanBegins] }))
          (setQuery "batman" Sys.init)))).app.error = "" ∧
    (setQuery "" (selectMovie "tt0372784"
        (settle 0 (.response true (some { Response := some "True", Search := some [batmanBegins] }))
          (setQuery "batman" Sys.init)))).app.movies = some [] ∧
    (setQuery "" (selectMovie "tt0372784"
        (settle 0 (.response true (some { Response := some "True", Search := some [batmanBegins] }))
          (setQuery "batman" Sys.init)))).lookups.length
      = (selectMovie "tt0372784"
        (settle 0 (.response true (some { Response := some "True", Search := some [batmanBegins] }))
          (setQuery "batman" Sys.init))).lookups.length ∧
    (setQuery "" (selectMovie "tt0372784"
        (settle 0 (.response true (some { Response := some "True", Search := some [batmanBegins] }))
          (setQuery "batman" Sys.init)))).cleanup = none ∧
    (setQuery "" (selectMovie "tt0372784"
        (settle 0 (.response true (some { Response := some "True", Search := some [batmanBegins] }))
          (setQuery "batman" Sys.init)))).app.selectedId
      = (selectMovie "tt0372784"
        (settle 0 (.response true (some { Response := some "True", Search := some [batmanBegins] }))
          (setQuery "batman" Sys.init))).app.selectedId :=
  setQuery_empty (selectMovie "tt0372784"
      (settle 0 (.response true (some { Response := some "True", Search := some [batmanBegins] }))
        (setQuery "batman" Sys.init))) (by decide) (by decide)

/-! ## Theorems: uniqueness of the watchlist ids -/

/-- Removal keeps the ids pairwise distinct. -/
theorem handleRemoving_ids_nodup (id : Option String) (w : List MovieRecord)
    (h : (watchedIds w).Nodup) : (watchedIds (handleRemoving id w)).Nodup := by
  unfold watchedIds handleRemoving at *
  exact List.Nodup.sublist (List.Sublist.map _ (List.filter_sublist w)) h

/-- Adding a record whose id is not among the ids keeps them pairwise distinct. -/
theorem handleAddWatched_ids_nodup (e : MovieRecord) (w : List MovieRecord)
    (h : (watchedIds w).Nodup) (hid : e.imdbID ∉ watchedIds w) :
    (watchedIds (handleAddWatched e w)).Nodup := by
  unfold watchedIds handleAddWatched at *
  rw [List.map_append, List.nodup_append]
  refine ⟨h, by simp, ?_⟩
  intro a ha hb
  simp only [List.map_cons, List.map_nil, List.mem_singleton] at hb
  subst hb
  exact hid ha

/-- Claim C9, evaluated on the code: starting from the empty watchlist, the
movie "tt1" is opened, rated 7 and added.  It is opened again, and "tt2" is
selected while the detail request for "tt1" is in flight.  The answer for
"tt2" arrives first, the answer for "tt1" second and replaces the shown
record, while the selected id stays "tt2".  `isWatched` is false, the record
of "tt1" is rated 5 and added: the watchlist has two entries with id "tt1". -/
theorem stale_detail_duplicates_id :
    (UI.run sampleDirectory UI.init
        [.select "tt1", .response 0, .rate 7, .add,
         .select "tt1", .select "tt2", .response 1, .response 0, .rate 5, .add]).map
      (fun ui => (watchedIds ui.watched, ui.watched.map (fun m => m.passedRate)))
      = some ([some "tt1", some "tt1"], [.num (JSNum.ofNat 7), .num (JSNum.ofNat 5)]) ∧
    ¬ ([some "tt1", some "tt1"] : List (Option String)).Nodup := by
  refine ⟨by decide, by decide⟩

/-! ## Theorems: the summary of the empty watchlist -/

/-- Claim C5, as stated, fails: for the empty watchlist none of the three means is NaN. -/
theorem average_empty_not_nan :
    average (([] : List MovieRecord).map (fun movie => movie.imdbRating)) ≠ .nan ∧
    average (([] : List MovieRecord).map (fun movie => movie.passedRate)) ≠ .nan ∧
    average (([] : List MovieRecord).map (fun movie => JSVal.num (runtimeValue movie))) ≠ .nan ∧
    (WatchedSummary []).avgImdbRating ≠ "NaN" := by
  decide

/-- Claim C5, amended: for the empty watchlist `reduce` returns its initial
value, so each of the three means is the number 0 and no division takes
place; the summary shows "0.0" three times. -/
theorem average_empty_is_zero :
    average (([] : List MovieRecord).map (fun movie => movie.imdbRating)) = .fin 0 ∧
    average (([] : List MovieRecord).map (fun movie => movie.passedRate)) = .fin 0 ∧
    average (([] : List MovieRecord).map (fun movie => JSVal.num (runtimeValue movie))) = .fin 0 ∧
    WatchedSummary [] =
      { count := 0, avgImdbRating := "0.0", avgUserRating := "0.0", avgRuntime := "0.0" } := by
  decide

/-! ## Theorems: rounding of natural numbers -/

theorem shrinkLog_lower (ps : List Nat) : ∀ (n acc : Nat), 0 < n →
    ∃ r, shrinkLog ps n acc = acc + r ∧ 2 ^ r ≤ n := by
  induction ps with
  | nil => intro n acc hn; exact ⟨0, rfl, hn⟩
  | cons p ps ih =>
    intro n acc hn
    unfold shrinkLog
    split
    · rename_i hp
      have hpos : 0 < n / 2 ^ p := Nat.div_pos hp (Nat.two_pow_pos p)
      obtain ⟨r, hr, hle⟩ := ih (n / 2 ^ p) (acc + p) hpos
      refine ⟨p + r, by rw [hr]; omega, ?_⟩
      rw [pow_add]
      calc 2 ^ p * 2 ^ r ≤ 2 ^ p * (n / 2 ^ p) := Nat.mul_le_mul_left _ hle
        _ ≤ n := Nat.mul_div_le n (2 ^ p)
    · exact ih n acc hn

/-- The leading bit found by `bitLength` is a bit of the number. -/
theorem bitLength_lower {n : Nat} (hn : 0 < n) : 2 ^ (bitLength n - 1) ≤ n := by
  unfold bitLength
  rw [if_neg (by omega)]
  obtain ⟨r, hr, hle⟩ := shrinkLog_lower (growExps n n 1 []) n 0 hn
  rw [hr]
  simpa using hle

theorem bitLength_le {n L : Nat} (h : n < 2 ^ L) : bitLength n ≤ L := by
  rcases Nat.eq_zero_or_pos n with h0 | hpos
  · subst h0; simp [bitLength]
  · by_contra hc
    have h1 : L ≤ bitLength n - 1 := by omega
    have h2 : 2 ^ L ≤ 2 ^ (bitLength n - 1) := Nat.pow_le_pow_right (by decide) h1
    have h3 := bitLength_lower hpos
    omega

/-- A natural number below `2^53` is a Number, exactly. -/
theorem ofNat_exact {n : Nat} (h : n < 2 ^ 53) : JSNum.ofNat n = .fin ((n * unit : Nat) : Int) := by
  have hN : n * unit < 2 ^ (53 + 1074) := by
    rw [pow_add]
    exact Nat.mul_lt_mul_of_pos_right h (Nat.two_pow_pos 1074)
  have hs : bitLength (n * unit / 1) - 53 ≤ 1074 := by
    have := bitLength_le hN
    rw [Nat.div_one]
    omega
  obtain ⟨t, ht⟩ : ∃ t, bitLength (n * unit / 1) - 53 + t = 1074 := ⟨1074 - (bitLength (n * unit / 1) - 53), by omega⟩
  have hdiv : n * unit = (n * 2 ^ t) * 2 ^ (bitLength (n * unit / 1) - 53) := by
    rw [Nat.mul_assoc, ← pow_add, Nat.add_comm, ht]; rfl
  have hr : roundUnits (n * unit) 1 = n * unit := by
    unfold roundUnits
    simp only []
    generalize bitLength (n * unit / 1) - 53 = s at hdiv
    rw [Nat.one_mul]
    unfold roundNearestEven
    have hpos : 0 < 2 ^ s := Nat.two_pow_pos s
    have hq : n * unit / 2 ^ s = n * 2 ^ t := by rw [hdiv]; exact Nat.mul_div_cancel _ hpos
    have hm : n * unit % 2 ^ s = 0 := by rw [hdiv]; exact Nat.mul_mod_left _ _
    simp only [hq, hm, Nat.mul_zero, hpos, if_true]
    exact hdiv.symm
  have hov : ¬ overflowBound ≤ n * unit := by
    have : (2:Nat) ^ (53 + 1074) ≤ 2 ^ 2098 := Nat.pow_le_pow_right (by decide) (by decide)
    unfold overflowBound
    omega
  simp [JSNum.ofNat, JSNum.ofFrac, fl, hr, hov]

/-- Rounding a non-negative value gives `+Infinity` or a non-negative finite Number. -/
theorem fl_false_nonNeg (n d : Nat) : (fl false n d).nonNeg := by
  unfold fl
  simp only []
  split <;> simp [JSNum.nonNeg]


/-! ## Theorems: numerals -/

theorem digit_bounds {c : Char} (h : isDecimalDigit c = true) : 48 ≤ c.toNat ∧ c.toNat ≤ 57 := by
  simp only [isDecimalDigit, decide_eq_true_eq] at h
  obtain ⟨h1, h2⟩ := h
  rw [Char.le_def] at h1 h2
  exact ⟨h1, h2⟩

theorem digitValue_digit {c : Char} (h : isDecimalDigit c = true) :
    digitValue 10 c = some (c.toNat - '0'.toNat) := by
  have hb := digit_bounds h
  simp only [isDecimalDigit, decide_eq_true_eq] at h
  have h0 : '0'.toNat = 48 := rfl
  simp only [digitValue, h, and_self, if_true, h0]
  have : c.toNat - 48 < 10 := by omega
  simp [this]

theorem char_ne_of_toNat_ne {c d : Char} (h : c.toNat ≠ d.toNat) : c ≠ d :=
  fun e => h (by rw [e])

theorem digit_not_whiteSpace {c : Char} (h : isDecimalDigit c = true) :
    isStrWhiteSpace c = false := by
  have hb := digit_bounds h
  simp only [isStrWhiteSpace, decide_eq_false_iff_not, List.mem_cons, List.mem_singleton,
    List.not_mem_nil, or_false, not_or]
  omega

/-- Reading digits stops at the end of the text or at a space. -/
theorem takeDigits_digits (ds rest : List Char) (hds : ∀ c ∈ ds, isDecimalDigit c = true)
    (hrest : rest = [] ∨ ∃ r, rest = ' ' :: r) : ∀ (v n : Nat),
    takeDigits 10 (ds ++ rest) v n
      = (ds.foldl (fun v c => 10 * v + (c.toNat - '0'.toNat)) v, n + ds.length, rest) := by
  induction ds with
  | nil =>
    intro v n
    rcases hrest with h | ⟨r, h⟩
    · subst h; rfl
    · subst h
      have : digitValue 10 ' ' = none := by decide
      simp [takeDigits, this]
  | cons c cs ih =>
    intro v n
    have hc : isDecimalDigit c = true := hds c (List.mem_cons_self _ _)
    have hcs : ∀ x ∈ cs, isDecimalDigit x = true := fun x hx => hds x (List.mem_cons_of_mem _ hx)
    simp only [List.cons_append, takeDigits, digitValue_digit hc, List.foldl_cons, List.length_cons]
    rw [show cs.append rest = cs ++ rest from rfl, ih hcs]
    congr 2
    omega

theorem dropWhile_whiteSpace_digits (ds : List Char) (hds : ∀ c ∈ ds, isDecimalDigit c = true) :
    ds.dropWhile isStrWhiteSpace = ds := by
  cases ds with
  | nil => rfl
  | cons c cs =>
    simp [List.dropWhile, digit_not_whiteSpace (hds c (List.mem_cons_self _ _))]

theorem trimWhiteSpace_digits (ds : List Char) (hds : ∀ c ∈ ds, isDecimalDigit c = true) :
    trimWhiteSpace ds = ds := by
  unfold trimWhiteSpace
  rw [dropWhile_whiteSpace_digits ds hds,
    dropWhile_whiteSpace_digits ds.reverse (fun c hc => hds c (List.mem_reverse.mp hc)),
    List.reverse_reverse]

theorem parseNonDecimal_digits (ds : List Char) (hds : ∀ c ∈ ds, isDecimalDigit c = true) :
    parseNonDecimal ds = none := by
  unfold parseNonDecimal
  split
  · rename_i c rest
    have hc : isDecimalDigit c = true := hds c (by simp)
    have hb := digit_bounds hc
    have h1 : c ≠ 'x' := char_ne_of_toNat_ne (by have : 'x'.toNat = 120 := rfl; omega)
    have h2 : c ≠ 'X' := char_ne_of_toNat_ne (by have : 'X'.toNat = 88 := rfl; omega)
    have h3 : c ≠ 'o' := char_ne_of_toNat_ne (by have : 'o'.toNat = 111 := rfl; omega)
    have h4 : c ≠ 'O' := char_ne_of_toNat_ne (by have : 'O'.toNat = 79 := rfl; omega)
    have h5 : c ≠ 'b' := char_ne_of_toNat_ne (by have : 'b'.toNat = 98 := rfl; omega)
    have h6 : c ≠ 'B' := char_ne_of_toNat_ne (by have : 'B'.toNat = 66 := rfl; omega)
    simp [h1, h2, h3, h4, h5, h6]
  · rfl

/-- A non-empty text of decimal digits converts to the Number of the natural
number it denotes. -/
theorem stringToNumber_digits (ds : List Char) (hne : ds ≠ [])
    (hds : ∀ c ∈ ds, isDecimalDigit c = true) :
    stringToNumber (String.mk ds) = JSNum.ofNat (natOfDigits ds) := by
  obtain ⟨c, cs, rfl⟩ := List.exists_cons_of_ne_nil hne
  have hc : isDecimalDigit c = true := hds c (List.mem_cons_self _ _)
  have hb := digit_bounds hc
  have hplus : c ≠ '+' := char_ne_of_toNat_ne (by have : '+'.toNat = 43 := rfl; omega)
  have hminus : c ≠ '-' := char_ne_of_toNat_ne (by have : '-'.toNat = 45 := rfl; omega)
  have hI : c ≠ 'I' := char_ne_of_toNat_ne (by have : 'I'.toNat = 73 := rfl; omega)
  have hinf : ¬ (c :: cs = "Infinity".data) := by
    intro e
    have : c = 'I' := by
      have h := congrArg List.head? e
      simpa using h
    exact hI this
  have htake := takeDigits_digits (c :: cs) [] hds (Or.inl rfl) 0 0
  rw [List.append_nil] at htake
  have hun : parseUnsignedDecimal false (c :: cs) = some (JSNum.ofNat (natOfDigits (c :: cs))) := by
    unfold parseUnsignedDecimal
    rw [if_neg hinf, htake]
    simp [parseExponent, decimalValue, JSNum.ofNat, JSNum.ofFrac, natOfDigits]
  unfold stringToNumber
  simp only [trimWhiteSpace_digits (c :: cs) hds, parseNonDecimal_digits (c :: cs) hds]
  simp [hun, hplus, hminus]


/-! ## Theorems: the runtime of a watched entry -/

theorem takeWhile_digits (ds rest : List Char) (hds : ∀ c ∈ ds, isDecimalDigit c = true)
    (hrest : rest = [] ∨ ∃ r, rest = ' ' :: r) :
    (ds ++ rest).takeWhile (fun c => c != ' ') = ds := by
  induction ds with
  | nil =>
    rcases hrest with h | ⟨r, h⟩ <;> subst h <;> simp
  | cons c cs ih =>
    have hc : isDecimalDigit c = true := hds c (List.mem_cons_self _ _)
    have hb := digit_bounds hc
    have hsp : c ≠ ' ' := char_ne_of_toNat_ne (by have : ' '.toNat = 32 := rfl; omega)
    have hcs : ∀ x ∈ cs, isDecimalDigit x = true := fun x hx => hds x (List.mem_cons_of_mem _ hx)
    have hb2 : (c != ' ') = true := by simpa using hsp
    simp only [List.cons_append, List.takeWhile, hb2]
    rw [show cs.append rest = cs ++ rest from rfl, ih hcs]

theorem splitFirst_digits (ds rest : List Char) (hds : ∀ c ∈ ds, isDecimalDigit c = true)
    (hrest : rest = [] ∨ ∃ r, rest = ' ' :: r) :
    splitFirst (String.mk (ds ++ rest)) = String.mk ds := by
  unfold splitFirst
  rw [takeWhile_digits ds rest hds hrest]

/-- The element 0 of `split(" ")` has no space and is followed in the text by
nothing or by a space. -/
theorem takeWhile_notSpace (l : List Char) :
    ' ' ∉ l.takeWhile (fun c => c != ' ') ∧
    ∃ rest, l = l.takeWhile (fun c => c != ' ') ++ rest ∧ (rest = [] ∨ ∃ t, rest = ' ' :: t) := by
  induction l with
  | nil => exact ⟨by simp, [], by simp, Or.inl rfl⟩
  | cons c cs ih =>
    by_cases hc : c = ' '
    · subst hc
      exact ⟨by simp [List.takeWhile], ' ' :: cs, by simp [List.takeWhile], Or.inr ⟨cs, rfl⟩⟩
    · have hb : (c != ' ') = true := by simpa using hc
      obtain ⟨h1, rest, h2, h3⟩ := ih
      refine ⟨?_, rest, ?_, h3⟩
      · simp only [List.takeWhile, hb, List.mem_cons, not_or]
        exact ⟨fun e => hc e.symm, h1⟩
      · simp only [List.takeWhile, hb, List.cons_append]
        exact congrArg (List.cons c) h2

theorem runtimeValue_present (movie : MovieRecord) (r : String) (h : movie.Runtime = some r) :
    runtimeValue movie = stringToNumber (splitFirst r) ∧
    ' ' ∉ (splitFirst r).data ∧
    ∃ rest, r.data = (splitFirst r).data ++ rest ∧ (rest = [] ∨ ∃ t, rest = ' ' :: t) := by
  refine ⟨by simp [runtimeValue, h, toNumber], ?_⟩
  exact takeWhile_notSpace r.data

theorem runtimeValue_missing (movie : MovieRecord) (h : movie.Runtime = none) :
    runtimeValue movie = .fin 0 := by
  simp [runtimeValue, h, toNumber]

theorem runtimeValue_digits (movie : MovieRecord) (ds rest : List Char) (hne : ds ≠ [])
    (hds : ∀ c ∈ ds, isDecimalDigit c = true) (hrest : rest = [] ∨ ∃ r, rest = ' ' :: r)
    (h : movie.Runtime = some (String.mk (ds ++ rest))) :
    runtimeValue movie = JSNum.ofNat (natOfDigits ds) := by
  simp only [runtimeValue, h, toNumber, splitFirst_digits ds rest hds hrest]
  exact stringToNumber_digits ds hne hds

theorem runtimeValue_nonNeg (movie : MovieRecord) (h : runtimeWellFormed movie) :
    (runtimeValue movie).nonNeg := by
  rcases h with h | ⟨ds, rest, hne, hds, hrest, h⟩
  · rw [runtimeValue_missing movie h]
    simp [JSNum.nonNeg]
  · rw [runtimeValue_digits movie ds rest hne hds hrest h]
    exact fl_false_nonNeg _ _

theorem div_nonNeg {v : JSNum} {b : Int} (hv : v.nonNeg) (hb : 0 < b) :
    (v.div (.fin b)).nonNeg := by
  cases v with
  | nan => exact hv.elim
  | inf neg =>
    simp only [JSNum.nonNeg] at hv
    subst hv
    have : ¬ b < 0 := by omega
    simp [JSNum.div, JSNum.nonNeg, this]
  | fin a =>
    simp only [JSNum.nonNeg] at hv
    have h1 : ¬ a < 0 := by omega
    have h2 : ¬ b < 0 := by omega
    have h3 : b ≠ 0 := by omega
    simp only [JSNum.div, h3, if_false, h1, h2, decide_False, bne_self_eq_false]
    exact fl_false_nonNeg _ _

theorem add_nonNeg {x y : JSNum} (hx : x.nonNeg) (hy : y.nonNeg) : (x.add y).nonNeg := by
  cases x with
  | nan => exact hx.elim
  | inf a =>
    simp only [JSNum.nonNeg] at hx
    subst hx
    cases y with
    | nan => exact hy.elim
    | inf b =>
      simp only [JSNum.nonNeg] at hy
      subst hy
      simp [JSNum.add, JSNum.nonNeg]
    | fin b => simp [JSNum.add, JSNum.nonNeg]
  | fin a =>
    simp only [JSNum.nonNeg] at hx
    cases y with
    | nan => exact hy.elim
    | inf b =>
      simp only [JSNum.nonNeg] at hy
      subst hy
      simp [JSNum.add, JSNum.nonNeg]
    | fin b =>
      simp only [JSNum.nonNeg] at hy
      have : ¬ a + b < 0 := by omega
      simp only [JSNum.add, this, decide_False]
      exact fl_false_nonNeg _ _

theorem foldl_nonNeg (d : JSNum) (hd : ∀ v : JSNum, v.nonNeg → (v.div d).nonNeg) :
    ∀ (vs : List JSVal) (acc : JSNum), acc.nonNeg → (∀ v ∈ vs, (toNumber v).nonNeg) →
      (vs.foldl (fun acc cur => acc.add ((toNumber cur).div d)) acc).nonNeg := by
  intro vs
  induction vs with
  | nil => intro acc hacc _; exact hacc
  | cons v vs ih =>
    intro acc hacc hvs
    rw [List.foldl_cons]
    exact ih _ (add_nonNeg hacc (hd _ (hvs v (List.mem_cons_self _ _))))
      (fun x hx => hvs x (List.mem_cons_of_mem _ hx))

/-- The mean of values that are not negative (and not NaN) is not NaN. -/
theorem average_nonNeg (arr : List JSVal) (hlen : arr.length < 2 ^ 53)
    (h : ∀ v ∈ arr, (toNumber v).nonNeg) : (average arr).nonNeg := by
  unfold average
  rcases Nat.eq_zero_or_pos arr.length with h0 | hpos
  · have : arr = [] := List.eq_nil_of_length_eq_zero h0
    subst this
    simp [JSNum.nonNeg]
  · rw [ofNat_exact hlen]
    refine foldl_nonNeg _ (fun v hv => div_nonNeg hv ?_) arr _ (by simp [JSNum.nonNeg]) h
    have : 0 < arr.length * unit := Nat.mul_pos hpos (Nat.two_pow_pos 1074)
    exact_mod_cast this

theorem nonNeg_ne_nan {x : JSNum} (h : x.nonNeg) : x ≠ .nan := by
  intro e
  subst e
  exact h

/-- Claim C6, as stated, fails: for the Runtime "N/A" the value is NaN, not 0,
and the mean runtime of a watchlist with such an entry is NaN. -/
theorem runtime_not_available_is_nan :
    runtimeValue (sampleEntry "tt1" "8.0" 7 (some "N/A")) = .nan ∧
    runtimeValue (sampleEntry "tt1" "8.0" 7 (some "N/A")) ≠ .fin 0 ∧
    average ([sampleEntry "tt1" "8.0" 7 (some "N/A"),
        sampleEntry "tt2" "7.0" 9 (some "100 min")].map
          (fun movie => JSVal.num (runtimeValue movie))) = .nan ∧
    (WatchedSummary [sampleEntry "tt1" "8.0" 7 (some "N/A"),
        sampleEntry "tt2" "7.0" 9 (some "100 min")]).avgRuntime = "NaN" := by
  decide

/-- Claim C6, amended: the runtime value of a watched entry is 0 when the
Runtime field is missing; otherwise it is the Number that the text before the
first space converts to, which for a decimal numeral is the number it
denotes ("140 min" gives 140); and in a watchlist (of fewer than `2^32`
entries) whose entries all have a missing Runtime or one that starts with a
decimal numeral, the mean runtime is not NaN. -/
theorem runtimeValue_missing_or_numeral :
    (∀ movie : MovieRecord, movie.Runtime = none → runtimeValue movie = .fin 0) ∧
    (∀ (movie : MovieRecord) (r : String), movie.Runtime = some r →
        runtimeValue movie = stringToNumber (splitFirst r) ∧
        ' ' ∉ (splitFirst r).data ∧
        ∃ rest, r.data = (splitFirst r).data ++ rest ∧ (rest = [] ∨ ∃ t, rest = ' ' :: t)) ∧
    (∀ (movie : MovieRecord) (ds rest : List Char), ds ≠ [] →
        (∀ c ∈ ds, isDecimalDigit c = true) → (rest = [] ∨ ∃ r, rest = ' ' :: r) →
        movie.Runtime = some (String.mk (ds ++ rest)) →
        runtimeValue movie = JSNum.ofNat (natOfDigits ds)) ∧
    runtimeValue (sampleEntry "tt1" "8.0" 7 (some "140 min")) = JSNum.ofNat 140 ∧
    (∀ watched : List MovieRecord, watched.length < 2 ^ 32 →
        (∀ movie ∈ watched, runtimeWellFormed movie) →
        average (watched.map (fun movie => JSVal.num (runtimeValue movie))) ≠ .nan) := by
  refine ⟨runtimeValue_missing, runtimeValue_present, runtimeValue_digits, by decide, ?_⟩
  intro watched hlen hall
  apply nonNeg_ne_nan
  apply average_nonNeg
  · rw [List.length_map]
    have : (2:Nat) ^ 32 ≤ 2 ^ 53 := Nat.pow_le_pow_right (by decide) (by decide)
    omega
  · intro v hv
    rw [List.mem_map] at hv
    obtain ⟨movie, hm, rfl⟩ := hv
    exact runtimeValue_nonNeg movie (hall movie hm)

/-- The amended claim C6 at a watchlist of an entry without Runtime and an entry
with Runtime "95 min": the values are 0 and 95 and the mean is not NaN. -/
theorem runtimeValue_missing_or_numeral_witness :
    runtimeValue (sampleEntry "tt1" "8.0" 7 none) = .fin 0 ∧
    runtimeValue (sampleEntry "tt2" "7.0" 9 (some "95 min")) = JSNum.ofNat (natOfDigits ['9', '5']) ∧
    average ([sampleEntry "tt1" "8.0" 7 none, sampleEntry "tt2" "7.0" 9 (some "95 min")].map
        (fun movie => JSVal.num (runtimeValue movie))) ≠ .nan :=
  ⟨runtimeValue_missing_or_numeral.1 _ rfl,
   runtimeValue_missing_or_numeral.2.2.1 _ ['9', '5'] [' ', 'm', 'i', 'n'] (by decide) (by decide)
     (Or.inr ⟨_, rfl⟩) rfl,
   runtimeValue_missing_or_numeral.2.2.2.2 _ (by decide) (by
     intro movie hm
     simp only [List.mem_cons, List.mem_singleton, List.not_mem_nil, or_false] at hm
     rcases hm with h | h
     · subst h; exact Or.inl rfl
     · subst h
       exact Or.inr ⟨['9', '5'], [' ', 'm', 'i', 'n'], by decide, by decide, Or.inr ⟨_, rfl⟩, rfl⟩)⟩


/-! ## Theorems: the rounding error of one operation -/

/-- The integer that `roundNearestEven` returns is within half a step of `n / d`. -/
theorem roundNearestEven_err (n d : Nat) (hd : 0 < d) :
    2 * (roundNearestEven n d * d) ≤ 2 * n + d ∧ 2 * n ≤ 2 * (roundNearestEven n d * d) + d := by
  have h1 := Nat.div_add_mod n d
  have h2 := Nat.mod_lt n hd
  have h3 : (n / d + 1) * d = d * (n / d) + d := by ring
  have h4 : n / d * d = d * (n / d) := Nat.mul_comm _ _
  unfold roundNearestEven
  simp only []
  split_ifs <;> (first | (rw [h3]; omega) | (rw [h4]; omega))

/-- The magnitude that `roundUnits` returns is within half a unit of `N / D`, or
within `2^(-53)` of it relatively. -/
theorem roundUnits_close (N D : Nat) (hD : 0 < D) :
    (2 * |((roundUnits N D * D : Nat) : Int) - N| ≤ D) ∨
    (2 ^ 53 * |((roundUnits N D * D : Nat) : Int) - N| ≤ N) := by
  unfold roundUnits
  simp only []
  generalize hs : bitLength (N / D) - 53 = s
  have hpos : 0 < D * 2 ^ s := Nat.mul_pos hD (Nat.two_pow_pos s)
  obtain ⟨e1, e2⟩ := roundNearestEven_err N (D * 2 ^ s) hpos
  have hmul : roundNearestEven N (D * 2 ^ s) * 2 ^ s * D
      = roundNearestEven N (D * 2 ^ s) * (D * 2 ^ s) := by ring
  rw [hmul]
  generalize roundNearestEven N (D * 2 ^ s) * (D * 2 ^ s) = U at e1 e2
  rcases Nat.eq_zero_or_pos s with h0 | hspos
  · left
    subst h0
    simp only [pow_zero, Nat.mul_one] at e1 e2
    rcases abs_cases ((U : Int) - N) with ⟨h, _⟩ | ⟨h, _⟩ <;> rw [h] <;> omega
  · right
    have hq : 0 < N / D := by
      rcases Nat.eq_zero_or_pos (N / D) with hz | hp
      · rw [hz] at hs
        simp [bitLength] at hs
        omega
      · exact hp
    have hb := bitLength_lower hq
    have hbl : bitLength (N / D) - 1 = s + 52 := by omega
    rw [hbl] at hb
    have hN : 2 ^ (s + 52) * D ≤ N :=
      le_trans (Nat.mul_le_mul_right D hb) (Nat.div_mul_le_self N D)
    have hpow : (2:Nat) ^ 53 * (D * 2 ^ s) = 2 * (2 ^ (s + 52) * D) := by
      rw [pow_add]; ring
    have hX : 2 ^ 53 * (D * 2 ^ s) ≤ 2 * N := by rw [hpow]; omega
    generalize D * 2 ^ s = Y at e1 e2 hX
    rcases abs_cases ((U : Int) - N) with ⟨h, _⟩ | ⟨h, _⟩ <;> rw [h] <;> omega

/-- Rounding a value below `2^1023` does not overflow. -/
theorem fl_fin (neg : Bool) (N D : Nat) (hD : 0 < D) (hN : N < D * 2 ^ 2097) :
    fl neg N D = .fin (if neg then -((roundUnits N D : Nat) : Int) else ((roundUnits N D : Nat) : Int)) := by
  have hov : ¬ overflowBound ≤ roundUnits N D := by
    intro h
    unfold overflowBound at h
    have h1 : 2 ^ 2098 * D ≤ roundUnits N D * D := Nat.mul_le_mul_right D h
    have hc := roundUnits_close N D hD
    generalize roundUnits N D * D = P at h1 hc
    rcases hc with hc | hc
    · rcases abs_cases ((P : Int) - N) with ⟨e, _⟩ | ⟨e, _⟩ <;> rw [e] at hc <;> omega
    · rcases abs_cases ((P : Int) - N) with ⟨e, _⟩ | ⟨e, _⟩ <;> rw [e] at hc <;> omega
  unfold fl
  simp only [hov, if_false]

theorem roundUnits_close_rat (N D : Nat) (hD : 0 < D) :
    |((roundUnits N D : Nat) : ℚ) - (N : ℚ) / D| ≤ 1 / 2 ∨
    |((roundUnits N D : Nat) : ℚ) - (N : ℚ) / D| ≤ (N : ℚ) / D / 2 ^ 53 := by
  have hDq : (0 : ℚ) < D := by exact_mod_cast hD
  have key : ((roundUnits N D : Nat) : ℚ) - (N : ℚ) / D
      = (((roundUnits N D * D : Nat) : ℚ) - N) / D := by
    push_cast
    field_simp
  rw [key, abs_div, abs_of_pos hDq]
  rcases roundUnits_close N D hD with h | h
  · left
    have h' : (2 : ℚ) * |((roundUnits N D * D : Nat) : ℚ) - N| ≤ D := by exact_mod_cast h
    rw [div_le_iff₀ hDq]
    linarith
  · right
    have h' : (2 : ℚ) ^ 53 * |((roundUnits N D * D : Nat) : ℚ) - N| ≤ N := by exact_mod_cast h
    have e : (N : ℚ) / D / 2 ^ 53 * D = N / 2 ^ 53 := by field_simp; ring
    rw [div_le_iff₀ hDq, e, le_div_iff₀ (by positivity)]
    linarith

/-- A quotient `a / n` by an array length is finite and within half a unit plus
a relative `2^(-53)` of the exact quotient. -/
theorem div_close (a : Int) (n : Nat) (hn : 0 < n) (hn53 : n < 2 ^ 53)
    (ha : a.natAbs < 2 ^ 2097) :
    ∃ q : Int, (JSNum.fin a).div (JSNum.ofNat n) = .fin q ∧
      |(q : ℚ) - (a : ℚ) / n| ≤ 1 / 2 + |(a : ℚ)| / n / 2 ^ 53 := by
  have hupos : 0 < unit := Nat.two_pow_pos 1074
  have hD : 0 < n * unit := Nat.mul_pos hn hupos
  have hN : a.natAbs * unit < n * unit * 2 ^ 2097 := by
    have h1 : a.natAbs * unit < 2 ^ 2097 * unit := Nat.mul_lt_mul_of_pos_right ha hupos
    have h2 : 2 ^ 2097 * unit ≤ n * unit * 2 ^ 2097 := by
      have : 1 * (unit * 2 ^ 2097) ≤ n * (unit * 2 ^ 2097) := Nat.mul_le_mul_right _ hn
      calc 2 ^ 2097 * unit = 1 * (unit * 2 ^ 2097) := by ring
        _ ≤ n * (unit * 2 ^ 2097) := this
        _ = n * unit * 2 ^ 2097 := by ring
    omega
  have hb0 : ((n * unit : Nat) : Int) ≠ 0 := by exact_mod_cast hD.ne'
  have hbneg : ¬ ((n * unit : Nat) : Int) < 0 := by
    have : (0 : Int) ≤ ((n * unit : Nat) : Int) := Int.natCast_nonneg _
    omega
  have hnat : (((n * unit : Nat) : Int)).natAbs = n * unit := Int.natAbs_ofNat _
  have hx : ((a.natAbs * unit : Nat) : ℚ) / ((n * unit : Nat) : ℚ) = |(a : ℚ)| / n := by
    have hu : ((unit : Nat) : ℚ) ≠ 0 := by exact_mod_cast hupos.ne'
    have hnq : ((n : Nat) : ℚ) ≠ 0 := by exact_mod_cast hn.ne'
    have habs : ((a.natAbs : Nat) : ℚ) = |(a : ℚ)| := by
      rw [Nat.cast_natAbs, Int.cast_abs]
    push_cast
    rw [habs]
    field_simp
    ring
  have hc := roundUnits_close_rat (a.natAbs * unit) (n * unit) hD
  rw [hx] at hc
  have hrel : 0 ≤ |(a : ℚ)| / n / 2 ^ 53 := by positivity
  have hbound : |((roundUnits (a.natAbs * unit) (n * unit) : Nat) : ℚ) - |(a : ℚ)| / n|
      ≤ 1 / 2 + |(a : ℚ)| / n / 2 ^ 53 := by
    rcases hc with hc | hc <;> linarith
  refine ⟨if a < 0 then -((roundUnits (a.natAbs * unit) (n * unit) : Nat) : Int)
      else ((roundUnits (a.natAbs * unit) (n * unit) : Nat) : Int), ?_, ?_⟩
  · rw [ofNat_exact hn53]
    simp only [JSNum.div, hb0, if_false, hbneg, decide_False, Bool.bne_false, hnat]
    rw [fl_fin _ _ _ hD hN]
    by_cases h : a < 0 <;> simp [h]
  · by_cases h : a < 0
    · have haq : (a : ℚ) < 0 := by exact_mod_cast h
      rw [abs_of_neg haq] at hbound ⊢
      simp only [h, if_true]
      push_cast
      have e : -((roundUnits (a.natAbs * unit) (n * unit) : Nat) : ℚ) - (a : ℚ) / n
          = -(((roundUnits (a.natAbs * unit) (n * unit) : Nat) : ℚ) - -(a : ℚ) / n) := by ring
      rw [e, abs_neg]
      exact hbound
    · have haq : (0 : ℚ) ≤ a := by
        have : 0 ≤ a := by omega
        exact_mod_cast this
      rw [abs_of_nonneg haq] at hbound ⊢
      simp only [h, if_false]
      push_cast
      exact hbound

/-- A sum `a + b` of finite Numbers is finite and within a relative `2^(-53)`
of the exact sum. -/
theorem add_close (a b : Int) (h : (a + b).natAbs < 2 ^ 2097) :
    ∃ c : Int, (JSNum.fin a).add (JSNum.fin b) = .fin c ∧
      |(c : ℚ) - ((a : ℚ) + b)| ≤ |(a : ℚ) + b| / 2 ^ 53 := by
  have hN : (a + b).natAbs < 1 * 2 ^ 2097 := by omega
  have hc := roundUnits_close (a + b).natAbs 1 Nat.one_pos
  rw [Nat.mul_one] at hc
  have habs : (((a + b).natAbs : Nat) : ℚ) = |(a : ℚ) + b| := by
    rw [Nat.cast_natAbs, Int.cast_abs]; push_cast; rfl
  have hbound : |((roundUnits (a + b).natAbs 1 : Nat) : ℚ) - abs ((a : ℚ) + b)|
      ≤ abs ((a : ℚ) + b) / 2 ^ 53 := by
    rw [← habs]
    generalize (a + b).natAbs = M at hc
    generalize roundUnits M 1 = R at hc
    rcases hc with hc | hc
    · have hz : (R : Int) - (M : Int) = 0 := by
        rcases abs_cases ((R : Int) - (M : Int)) with ⟨e, _⟩ | ⟨e, _⟩ <;> rw [e] at hc <;> omega
      have hz' : (R : ℚ) - (M : ℚ) = 0 := by exact_mod_cast hz
      rw [hz', abs_zero]
      positivity
    · have h' : (2 : ℚ) ^ 53 * |(R : ℚ) - (M : ℚ)| ≤ (M : ℚ) := by exact_mod_cast hc
      rw [le_div_iff₀ (by positivity)]
      linarith
  refine ⟨if a + b < 0 then -((roundUnits (a + b).natAbs 1 : Nat) : Int)
      else ((roundUnits (a + b).natAbs 1 : Nat) : Int), ?_, ?_⟩
  · simp only [JSNum.add]
    rw [fl_fin _ _ _ Nat.one_pos hN]
    by_cases h0 : a + b < 0 <;> simp [h0]
  · by_cases h0 : a + b < 0
    · have hq : (a : ℚ) + b < 0 := by exact_mod_cast h0
      rw [abs_of_neg hq] at hbound ⊢
      simp only [h0, if_true]
      push_cast
      have e : -((roundUnits (a + b).natAbs 1 : Nat) : ℚ) - ((a : ℚ) + b)
          = -(((roundUnits (a + b).natAbs 1 : Nat) : ℚ) - -((a : ℚ) + b)) := by ring
      rw [e, abs_neg]
      exact hbound
    · have hq : (0 : ℚ) ≤ (a : ℚ) + b := by
        have : 0 ≤ a + b := by omega
        exact_mod_cast this
      rw [abs_of_nonneg hq] at hbound ⊢
      simp only [h0, if_false]
      push_cast
      exact hbound


/-! ## Theorems: the rounding error of `average` -/

theorem natAbs_lt_of_abs_le (k : Int) (M : ℚ) (h : |(k : ℚ)| ≤ M) (hM : M < 2 ^ 2097) :
    k.natAbs < 2 ^ 2097 := by
  have h1 : ((k.natAbs : Nat) : ℚ) = |(k : ℚ)| := by rw [Nat.cast_natAbs, Int.cast_abs]
  have h2 : ((k.natAbs : Nat) : ℚ) < ((2 ^ 2097 : Nat) : ℚ) := by
    rw [h1]; push_cast; linarith
  exact_mod_cast h2

/-- The running sum of `average` after every step: finite, and within
`(number of steps) * (3 * M / 2^53 + 1)` units of the exact running sum, for
values of at most `M` units in magnitude. -/
theorem foldl_close (n : Nat) (hn : 0 < n) (hn32 : n ≤ 2 ^ 32) (M : ℚ) (hM : M ≤ 2 ^ 2090) :
    ∀ (vs : List JSVal) (acc : Int) (S : ℚ) (i : Nat),
      i + vs.length ≤ n →
      |(acc : ℚ) - S| ≤ i * (3 * M / 2 ^ 53 + 1) → |S| ≤ i * (M / n) →
      (∀ v ∈ vs, ∃ k : Int, toNumber v = .fin k ∧ |(k : ℚ)| ≤ M) →
      ∃ K : Int,
        vs.foldl (fun (acc : JSNum) cur => acc.add ((toNumber cur).div (JSNum.ofNat n)))
          (JSNum.fin acc) = JSNum.fin K ∧
        |(K : ℚ) - (S + (vs.map (fun v => (unitsOf v : ℚ))).sum / n)|
          ≤ ((i + vs.length : Nat) : ℚ) * (3 * M / 2 ^ 53 + 1) := by
  intro vs
  induction vs with
  | nil =>
    intro acc S i _ hacc _ _
    exact ⟨acc, rfl, by simpa using hacc⟩
  | cons v vs ih =>
    intro acc S i hlen hacc hS hvs
    obtain ⟨k, hk, hkM⟩ := hvs v (List.mem_cons_self _ _)
    have hrest : ∀ x ∈ vs, ∃ k : Int, toNumber x = .fin k ∧ |(k : ℚ)| ≤ M :=
      fun x hx => hvs x (List.mem_cons_of_mem _ hx)
    have hM0 : 0 ≤ M := le_trans (abs_nonneg _) hkM
    have hnq : (0 : ℚ) < n := by exact_mod_cast hn
    have hn53 : n < 2 ^ 53 := lt_of_le_of_lt hn32 (by decide)
    have hi : ((i : Nat) : ℚ) + 1 ≤ n := by
      have : i + 1 ≤ n := by simp only [List.length_cons] at hlen; omega
      exact_mod_cast this
    have hi0 : (0 : ℚ) ≤ i := Nat.cast_nonneg i
    have hn32q : (n : ℚ) ≤ 2 ^ 32 := by exact_mod_cast hn32
    -- the quotient
    obtain ⟨q, hq, hqe⟩ := div_close k n hn hn53
      (natAbs_lt_of_abs_le k M hkM (lt_of_le_of_lt hM (by norm_num)))
    -- sizes
    have hm0 : 0 ≤ M / n := div_nonneg hM0 hnq.le
    have hx : |(k : ℚ)| / n ≤ M / n := div_le_div_of_nonneg_right hkM hnq.le
    have hx0 : 0 ≤ |(k : ℚ)| / n := div_nonneg (abs_nonneg _) hnq.le
    have hmM : (i + 1) * (M / n) ≤ M := by
      have h1 : (i + 1) * (M / n) ≤ n * (M / n) := mul_le_mul_of_nonneg_right hi hm0
      have h2 : (n : ℚ) * (M / n) = M := by field_simp
      linarith
    have hB0 : 0 ≤ 3 * M / 2 ^ 53 + 1 := by
      have : 0 ≤ 3 * M / 2 ^ 53 := div_nonneg (by linarith) (by norm_num)
      linarith
    have hmn : M / n ≤ M := by
      have h1 : (1 : ℚ) ≤ n := by linarith
      exact div_le_self hM0 h1
    have hW : (i : ℚ) * (3 * M / 2 ^ 53 + 1) ≤ 2 ^ 32 * (3 * M / 2 ^ 53 + 1) :=
      mul_le_mul_of_nonneg_right (by linarith) hB0
    have hqabs : |(q : ℚ)| ≤ |(k : ℚ)| / n + (1 / 2 + |(k : ℚ)| / n / 2 ^ 53) := by
      have h1 : |(q : ℚ)| ≤ |(q : ℚ) - (k : ℚ) / n| + |(k : ℚ) / n| := by
        have := abs_add ((q : ℚ) - (k : ℚ) / n) ((k : ℚ) / n)
        simpa using this
      have h2 : |(k : ℚ) / n| = |(k : ℚ)| / n := by rw [abs_div, abs_of_pos hnq]
      linarith
    have haccabs : |(acc : ℚ)| ≤ |S| + i * (3 * M / 2 ^ 53 + 1) := by
      have h1 : |(acc : ℚ)| ≤ |(acc : ℚ) - S| + |S| := by
        have := abs_add ((acc : ℚ) - S) S
        simpa using this
      linarith
    have hT : |(acc : ℚ) + q| ≤ M + i * (3 * M / 2 ^ 53 + 1) + 1 / 2 + M / 2 ^ 53 := by
      have h1 := abs_add (acc : ℚ) (q : ℚ)
      have h2 : |(k : ℚ)| / n / 2 ^ 53 ≤ M / 2 ^ 53 := by
        apply div_le_div_of_nonneg_right _ (by positivity)
        linarith
      have h3 : (i : ℚ) * (M / n) + M / n ≤ M := by linarith
      linarith
    -- the sum
    obtain ⟨c, hc, hce⟩ := add_close acc q (by
      apply natAbs_lt_of_abs_le (acc + q) (M + 2 ^ 32 * (3 * M / 2 ^ 53 + 1) + 1 / 2 + M / 2 ^ 53)
      · push_cast; linarith
      · have : M + 2 ^ 32 * (3 * M / 2 ^ 53 + 1) + 1 / 2 + M / 2 ^ 53 ≤ 4 * M + 2 ^ 33 := by
          linarith
        have h2 : (4 : ℚ) * M + 2 ^ 33 < 2 ^ 2097 := by
          have : (4 : ℚ) * 2 ^ 2090 + 2 ^ 33 < 2 ^ 2097 := by norm_num
          linarith
        linarith)
    have hu : unitsOf v = k := by simp [unitsOf, hk]
    have hcS : |(c : ℚ) - (S + (k : ℚ) / n)| ≤ ((i + 1 : Nat) : ℚ) * (3 * M / 2 ^ 53 + 1) := by
      have e : (c : ℚ) - (S + (k : ℚ) / n)
          = ((c : ℚ) - ((acc : ℚ) + q)) + (((acc : ℚ) - S) + ((q : ℚ) - (k : ℚ) / n)) := by ring
      have h1 := abs_add ((c : ℚ) - ((acc : ℚ) + q)) (((acc : ℚ) - S) + ((q : ℚ) - (k : ℚ) / n))
      have h2 := abs_add ((acc : ℚ) - S) ((q : ℚ) - (k : ℚ) / n)
      have h3 : |(acc : ℚ) + q| / 2 ^ 53
          ≤ (M + i * (3 * M / 2 ^ 53 + 1) + 1 / 2 + M / 2 ^ 53) / 2 ^ 53 :=
        div_le_div_of_nonneg_right hT (by positivity)
      have h4 : |(k : ℚ)| / n / 2 ^ 53 ≤ M / 2 ^ 53 := by
        apply div_le_div_of_nonneg_right _ (by positivity)
        linarith
      rw [e]
      push_cast
      linarith
    have hS' : |S + (k : ℚ) / n| ≤ ((i + 1 : Nat) : ℚ) * (M / n) := by
      have h1 := abs_add S ((k : ℚ) / n)
      have h2 : |(k : ℚ) / n| = |(k : ℚ)| / n := by rw [abs_div, abs_of_pos hnq]
      push_cast
      linarith
    obtain ⟨K, hK, hKe⟩ := ih c (S + (k : ℚ) / n) (i + 1)
      (by simp only [List.length_cons] at hlen; omega) hcS hS' hrest
    refine ⟨K, ?_, ?_⟩
    · rw [List.foldl_cons, hk, hq, hc]
      exact hK
    · have e1 : S + ((v :: vs).map (fun v => (unitsOf v : ℚ))).sum / n
          = S + (k : ℚ) / n + (vs.map (fun v => (unitsOf v : ℚ))).sum / n := by
        rw [List.map_cons, List.sum_cons, hu]
        ring
      have e2 : i + (v :: vs).length = i + 1 + vs.length := by
        simp only [List.length_cons]; omega
      rw [e1, e2]
      exact hKe


/-! ## Theorems: the means of the summary -/

theorem toRat_toNumber (v : JSVal) :
    (toNumber v).toRat = (unitsOf v : ℚ) / ((unit : Nat) : ℚ) := by
  unfold unitsOf
  cases h : toNumber v <;> simp [JSNum.toRat]

/-- Claim C7, as stated, fails: for six movies rated 9.3, 7.3, 3.1, 5.7, 8.0 and
9.5 the summary shows "7.1".  The mean is 42.9 / 6 = 7.15.  The running sum
of the six rounded quotients is 8050184333924761 * 2^(-50), that is
7.1499999999999995, one step below the Number nearest to 7.15, which is
8050184333924762 * 2^(-50); `toFixed(1)` of the former is "7.1".  The sum of
the values divided by their number shows as "7.2", the Number nearest to
429 / 60 shows as "7.2", and the tenth nearest to 429 / 60 is 72 tenths. -/
theorem mean_rating_shown_below_mean :
    (WatchedSummary sixRatings).avgImdbRating = "7.1" ∧
    sixRatings.map (fun movie => toNumber movie.imdbRating)
      = [93, 73, 31, 57, 80, 95].map (fun t => JSNum.ofFrac t 10) ∧
    ([93, 73, 31, 57, 80, 95] : List Nat).sum = 429 ∧ sixRatings.length = 6 ∧
    average (sixRatings.map (fun movie => movie.imdbRating))
      = .fin ((8050184333924761 * 2 ^ 1024 : Nat) : Int) ∧
    JSNum.ofFrac 429 60 = .fin ((8050184333924762 * 2 ^ 1024 : Nat) : Int) ∧
    toFixed1 (sumThenDivide (sixRatings.map (fun movie => movie.imdbRating))) = "7.2" ∧
    toFixed1 (JSNum.ofFrac 429 60) = "7.2" ∧
    (2 * (10 * 429) + 60) / (2 * 60) = 72 := by
  decide


theorem unit_cast : ((unit : Nat) : ℚ) = 2 ^ 1074 := by
  unfold unit
  rw [Nat.cast_pow, Nat.cast_ofNat]

theorem sum_toRat_units (arr : List JSVal) :
    (arr.map (fun v => (toNumber v).toRat)).sum
      = (arr.map (fun v => (unitsOf v : ℚ))).sum / 2 ^ 1074 := by
  induction arr with
  | nil => simp
  | cons v vs ih =>
    rw [List.map_cons, List.sum_cons, ih, toRat_toNumber, List.map_cons, List.sum_cons, unit_cast]
    ring

/-- The Number that `average` returns for finite values of magnitude at most
`V` is finite and within `count * (3 * V / 2^53 + 2^(-1074))` of the
arithmetic mean of the values. -/
theorem average_close (arr : List JSVal) (V : ℚ) (hne : arr ≠ [])
    (hlen : arr.length ≤ 2 ^ 32) (hV : V ≤ 2 ^ 1000)
    (h : ∀ v ∈ arr, (toNumber v).isFinite = true ∧ |(toNumber v).toRat| ≤ V) :
    (average arr).isFinite = true ∧
    |(average arr).toRat - (arr.map (fun v => (toNumber v).toRat)).sum / (arr.length : ℚ)|
      ≤ (arr.length : ℚ) * (3 * V / 2 ^ 53 + 1 / 2 ^ 1074) := by
  have hn : 0 < arr.length := List.length_pos.mpr hne
  have hU : (0 : ℚ) < 2 ^ 1074 := by positivity
  have hvals : ∀ v ∈ arr, ∃ k : Int, toNumber v = .fin k ∧ |(k : ℚ)| ≤ V * 2 ^ 1074 := by
    intro v hv
    obtain ⟨hf, hb⟩ := h v hv
    cases hk : toNumber v with
    | nan => simp [hk, JSNum.isFinite] at hf
    | inf neg => simp [hk, JSNum.isFinite] at hf
    | fin k =>
      refine ⟨k, rfl, ?_⟩
      rw [hk] at hb
      simp only [JSNum.toRat, unit_cast] at hb
      rw [abs_div, abs_of_pos hU, div_le_iff₀ hU] at hb
      exact hb
  have hM : V * 2 ^ 1074 ≤ 2 ^ 2090 := by
    have h1 : V * 2 ^ 1074 ≤ 2 ^ 1000 * 2 ^ 1074 := mul_le_mul_of_nonneg_right hV hU.le
    have h2 : (2 : ℚ) ^ 1000 * 2 ^ 1074 ≤ 2 ^ 2090 := by
      rw [← pow_add]
      exact pow_le_pow_right₀ (by norm_num) (by norm_num)
    linarith
  obtain ⟨K, hK, hKe⟩ := foldl_close arr.length hn hlen (V * 2 ^ 1074) hM arr 0 0 0
    (by omega) (by simp) (by simp) hvals
  have hav : average arr = .fin K := by
    unfold average
    exact hK
  rw [hav]
  refine ⟨rfl, ?_⟩
  have hnq : (0 : ℚ) < arr.length := by exact_mod_cast hn
  rw [sum_toRat_units]
  simp only [JSNum.toRat, unit_cast]
  simp only [zero_add, Nat.zero_add, Nat.cast_zero] at hKe
  generalize (arr.map (fun v => (unitsOf v : ℚ))).sum = T at hKe ⊢
  generalize (arr.length : ℚ) = n at hKe hnq ⊢
  generalize (2 : ℚ) ^ 1074 = U at hKe hU ⊢
  have e : (K : ℚ) / U - T / U / n = ((K : ℚ) - T / n) / U := by
    field_simp
    ring
  rw [e, abs_div, abs_of_pos hU, div_le_iff₀ hU]
  have e2 : n * (3 * V / 2 ^ 53 + 1 / U) * U = n * (3 * (V * U) / 2 ^ 53 + 1) := by
    field_simp
    ring
  rw [e2]
  exact hKe

theorem decimalDigits_digit (m : Nat) (h : m < 10) : decimalDigits m = [Nat.digitChar m] := by
  unfold decimalDigits
  interval_cases m <;> rfl

/-- The text of `toFixed(1)` for a finite Number below `10^21` in magnitude: a
minus sign when negative, the decimal digits of `d / 10`, a point and the one
digit `d % 10`, for the number of tenths `d` nearest to the magnitude, the
larger one at a tie. -/
theorem toFixed1_nearest (k : Int) (hk : k.natAbs < 10 ^ 21 * unit) :
    ∃ d : Nat,
      toFixed1 (.fin k) = String.mk ((if k < 0 then ['-'] else []) ++ decimalDigits (d / 10)
        ++ ['.', Nat.digitChar (d % 10)]) ∧
      (d : ℚ) / 10 - 1 / 20 ≤ |(JSNum.fin k).toRat| ∧
      |(JSNum.fin k).toRat| < (d : ℚ) / 10 + 1 / 20 := by
  have hupos : 0 < unit := Nat.two_pow_pos 1074
  have hdm := Nat.div_add_mod (20 * k.natAbs + unit) (2 * unit)
  have hml := Nat.mod_lt (20 * k.natAbs + unit) (Nat.mul_pos (by decide : 0 < 2) hupos)
  have hU : (0 : ℚ) < (unit : ℚ) := by exact_mod_cast hupos
  have habs : |(JSNum.fin k).toRat| = (k.natAbs : ℚ) / (unit : ℚ) := by
    simp only [JSNum.toRat]
    rw [abs_div, abs_of_pos hU, Nat.cast_natAbs, Int.cast_abs]
  refine ⟨(20 * k.natAbs + unit) / (2 * unit), ?_, ?_, ?_⟩
  · have hlt : ¬ 10 ^ 21 * unit ≤ k.natAbs := by omega
    simp only [toFixed1, hlt, if_false]
    rw [decimalDigits_digit _ (Nat.mod_lt _ (by decide))]
    simp
  · rw [habs, le_div_iff₀ hU]
    generalize (20 * k.natAbs + unit) / (2 * unit) = d at hdm
    generalize (20 * k.natAbs + unit) % (2 * unit) = r at hdm hml
    have h1 : 2 * unit * d ≤ 20 * k.natAbs + unit := by omega
    have h1q : 2 * (unit : ℚ) * (d : ℚ) ≤ 20 * (k.natAbs : ℚ) + (unit : ℚ) := by
      exact_mod_cast h1
    generalize (k.natAbs : ℚ) = u at h1q ⊢
    generalize (unit : ℚ) = U at h1q hU ⊢
    linarith
  · rw [habs, div_lt_iff₀ hU]
    generalize (20 * k.natAbs + unit) / (2 * unit) = d at hdm
    generalize (20 * k.natAbs + unit) % (2 * unit) = r at hdm hml
    have h2 : 20 * k.natAbs + unit < 2 * unit * d + 2 * unit := by omega
    have h2q : 20 * (k.natAbs : ℚ) + (unit : ℚ) < 2 * (unit : ℚ) * (d : ℚ) + 2 * (unit : ℚ) := by
      exact_mod_cast h2
    generalize (k.natAbs : ℚ) = u at h2q ⊢
    generalize (unit : ℚ) = U at h2q hU ⊢
    linarith


theorem abs_sum_le (arr : List JSVal) (V : ℚ)
    (h : ∀ v ∈ arr, |(toNumber v).toRat| ≤ V) :
    |(arr.map (fun v => (toNumber v).toRat)).sum| ≤ (arr.length : ℚ) * V := by
  induction arr with
  | nil => simp
  | cons v vs ih =>
    have h1 := h v (List.mem_cons_self _ _)
    have h2 := ih (fun x hx => h x (List.mem_cons_of_mem _ hx))
    have h3 := abs_add ((toNumber v).toRat) ((vs.map (fun v => (toNumber v).toRat)).sum)
    rw [List.map_cons, List.sum_cons, List.length_cons]
    push_cast
    linarith

/-- What `WatchedSummary` shows for a field: for a non-empty array of at most
`2^32` finite values of magnitude at most `V`, with `V` at most `10^20`, the
text is a numeral with exactly one decimal, `d` tenths, nearest to the Number
that `average` returns (the larger at a tie), and that Number is within
`count * (3 * V / 2^53 + 2^(-1074))` of the arithmetic mean of the values. -/
theorem average_shown (arr : List JSVal) (V : ℚ) (hne : arr ≠ [])
    (hlen : arr.length ≤ 2 ^ 32) (hV : V ≤ 10 ^ 20)
    (h : ∀ v ∈ arr, (toNumber v).isFinite = true ∧ |(toNumber v).toRat| ≤ V) :
    ∃ d : Nat,
      toFixed1 (average arr)
        = String.mk ((if (average arr).toRat < 0 then ['-'] else []) ++ decimalDigits (d / 10)
            ++ ['.', Nat.digitChar (d % 10)]) ∧
      (d : ℚ) / 10 - 1 / 20 ≤ |(average arr).toRat| ∧
      |(average arr).toRat| < (d : ℚ) / 10 + 1 / 20 ∧
      |(average arr).toRat - (arr.map (fun v => (toNumber v).toRat)).sum / (arr.length : ℚ)|
        ≤ (arr.length : ℚ) * (3 * V / 2 ^ 53 + 1 / 2 ^ 1074) := by
  have hV2 : V ≤ 2 ^ 1000 := by
    have : (10 : ℚ) ^ 20 ≤ 2 ^ 1000 := by norm_num
    linarith
  obtain ⟨hfin, hclose⟩ := average_close arr V hne hlen hV2 h
  have hn : 0 < arr.length := List.length_pos.mpr hne
  have hnq : (0 : ℚ) < arr.length := by exact_mod_cast hn
  have hnle : (arr.length : ℚ) ≤ 2 ^ 32 := by exact_mod_cast hlen
  have hV0 : 0 ≤ V := by
    obtain ⟨v, hv⟩ := List.exists_mem_of_ne_nil arr hne
    exact le_trans (abs_nonneg _) (h v hv).2
  -- the mean is at most V in magnitude
  have hmean : |(arr.map (fun v => (toNumber v).toRat)).sum / (arr.length : ℚ)| ≤ V := by
    rw [abs_div, abs_of_pos hnq, div_le_iff₀ hnq]
    have := abs_sum_le arr V (fun v hv => (h v hv).2)
    linarith
  -- the error is at most V + 1
  have herr : (arr.length : ℚ) * (3 * V / 2 ^ 53 + 1 / 2 ^ 1074) ≤ V + 1 := by
    have hB : 0 ≤ 3 * V / 2 ^ 53 + 1 / 2 ^ 1074 := by
      have h1 : 0 ≤ 3 * V / 2 ^ 53 := div_nonneg (by linarith) (by norm_num)
      have h2 : (0 : ℚ) ≤ 1 / 2 ^ 1074 := by norm_num
      linarith
    have h1 : (arr.length : ℚ) * (3 * V / 2 ^ 53 + 1 / 2 ^ 1074)
        ≤ 2 ^ 32 * (3 * V / 2 ^ 53 + 1 / 2 ^ 1074) := mul_le_mul_of_nonneg_right hnle hB
    have h2 : (2 : ℚ) ^ 32 * (1 / 2 ^ 1074) ≤ 1 := by norm_num
    have h3 : (2 : ℚ) ^ 32 * (3 * V / 2 ^ 53) ≤ V := by
      have : (2 : ℚ) ^ 32 * (3 * V / 2 ^ 53) = V * (3 / 2 ^ 21) := by ring
      rw [this]
      have : (3 : ℚ) / 2 ^ 21 ≤ 1 := by norm_num
      nlinarith
    linarith
  have hA : |(average arr).toRat| ≤ 2 * 10 ^ 20 + 1 := by
    have h1 := abs_sub_abs_le_abs_sub (average arr).toRat
      ((arr.map (fun v => (toNumber v).toRat)).sum / (arr.length : ℚ))
    linarith
  cases hk : average arr with
  | nan => simp [hk, JSNum.isFinite] at hfin
  | inf neg => simp [hk, JSNum.isFinite] at hfin
  | fin k =>
    rw [hk] at hA hclose
    have hupos : 0 < unit := Nat.two_pow_pos 1074
    have hU : (0 : ℚ) < (unit : ℚ) := by exact_mod_cast hupos
    have hkabs : k.natAbs < 10 ^ 21 * unit := by
      have h1 : |(JSNum.fin k).toRat| = (k.natAbs : ℚ) / (unit : ℚ) := by
        simp only [JSNum.toRat]
        rw [abs_div, abs_of_pos hU, Nat.cast_natAbs, Int.cast_abs]
      rw [h1, div_le_iff₀ hU] at hA
      have h2 : (k.natAbs : ℚ) < 10 ^ 21 * (unit : ℚ) := by
        have : (2 * 10 ^ 20 + 1 : ℚ) < 10 ^ 21 := by norm_num
        nlinarith
      exact_mod_cast h2
    obtain ⟨d, hd1, hd2, hd3⟩ := toFixed1_nearest k hkabs
    have hsign : ((JSNum.fin k).toRat < 0) ↔ k < 0 := by
      simp only [JSNum.toRat]
      rw [div_neg_iff]
      constructor
      · rintro (⟨_, h2⟩ | ⟨h1, _⟩)
        · linarith
        · exact_mod_cast h1
      · intro h1
        exact Or.inr ⟨by exact_mod_cast h1, hU⟩
    refine ⟨d, ?_, hd2, hd3, hclose⟩
    rw [hd1]
    by_cases hneg : k < 0
    · simp [hneg, hsign.mpr hneg]
    · have : ¬ (JSNum.fin k).toRat < 0 := fun hc => hneg (hsign.mp hc)
      simp [hneg, this]


theorem toRat_natUnits (m : Nat) : (JSNum.fin ((m * unit : Nat) : Int)).toRat = (m : ℚ) := by
  have hU : ((unit : Nat) : ℚ) ≠ 0 := by
    have : unit ≠ 0 := Nat.pos_iff_ne_zero.mp (Nat.two_pow_pos 1074)
    exact_mod_cast this
  simp only [JSNum.toRat]
  push_cast
  field_simp

/-- Claim C7, amended: each statistic of the summary is `toFixed(1)` of the
Number that `average` returns for its field.  For every non-empty watchlist
(of at most `2^32` entries) whose values of the field are finite and at most
`V` in magnitude (`V` at most `10^20`), the text shown is a numeral with
exactly one decimal, the number of tenths nearest to that Number (the larger
at a tie), and that Number differs from the arithmetic mean, (sum of the
values) / (number of entries), by at most `count * (3 * V / 2^53 + 2^(-1074))`,
the rounding of the Number arithmetic.  For the watchlist of the example the
summary shows "7.5", "8.0" and "120.0"; for two movies rated 8.0 and 8.1, 7
and 8, lasting 100 and 101 minutes it shows "8.1", "7.5" and "100.5". -/
theorem summary_means :
    (∀ watched : List MovieRecord,
        (WatchedSummary watched).avgImdbRating
          = toFixed1 (average (watched.map (fun movie => movie.imdbRating))) ∧
        (WatchedSummary watched).avgUserRating
          = toFixed1 (average (watched.map (fun movie => movie.passedRate))) ∧
        (WatchedSummary watched).avgRuntime
          = toFixed1 (average (watched.map (fun movie => JSVal.num (runtimeValue movie))))) ∧
    (∀ (arr : List JSVal) (V : ℚ), arr ≠ [] → arr.length ≤ 2 ^ 32 → V ≤ 10 ^ 20 →
        (∀ v ∈ arr, (toNumber v).isFinite = true ∧ |(toNumber v).toRat| ≤ V) →
        ∃ d : Nat,
          toFixed1 (average arr)
            = String.mk ((if (average arr).toRat < 0 then ['-'] else [])
                ++ decimalDigits (d / 10) ++ ['.', Nat.digitChar (d % 10)]) ∧
          (d : ℚ) / 10 - 1 / 20 ≤ |(average arr).toRat| ∧
          |(average arr).toRat| < (d : ℚ) / 10 + 1 / 20 ∧
          |(average arr).toRat - (arr.map (fun v => (toNumber v).toRat)).sum / (arr.length : ℚ)|
            ≤ (arr.length : ℚ) * (3 * V / 2 ^ 53 + 1 / 2 ^ 1074)) ∧
    WatchedSummary exampleWatchlist =
      { count := 2, avgImdbRating := "7.5", avgUserRating := "8.0", avgRuntime := "120.0" } ∧
    WatchedSummary pairRatings =
      { count := 2, avgImdbRating := "8.1", avgUserRating := "7.5", avgRuntime := "100.5" } := by
  refine ⟨fun watched => ⟨rfl, rfl, rfl⟩, average_shown, by decide, by decide⟩

/-- The amended claim C7 at the ratings "8.0" and "7.0" of the example, with the
bound 10 on a rating. -/
theorem summary_means_witness :
    ∃ d : Nat,
      toFixed1 (average [JSVal.str "8.0", JSVal.str "7.0"])
        = String.mk ((if (average [JSVal.str "8.0", JSVal.str "7.0"]).toRat < 0 then ['-'] else [])
            ++ decimalDigits (d / 10) ++ ['.', Nat.digitChar (d % 10)]) ∧
      (d : ℚ) / 10 - 1 / 20 ≤ |(average [JSVal.str "8.0", JSVal.str "7.0"]).toRat| ∧
      |(average [JSVal.str "8.0", JSVal.str "7.0"]).toRat| < (d : ℚ) / 10 + 1 / 20 ∧
      |(average [JSVal.str "8.0", JSVal.str "7.0"]).toRat
          - ([JSVal.str "8.0", JSVal.str "7.0"].map (fun v => (toNumber v).toRat)).sum
            / (([JSVal.str "8.0", JSVal.str "7.0"] : List JSVal).length : ℚ)|
        ≤ (([JSVal.str "8.0", JSVal.str "7.0"] : List JSVal).length : ℚ)
            * (3 * 10 / 2 ^ 53 + 1 / 2 ^ 1074) :=
  summary_means.2.1 [JSVal.str "8.0", JSVal.str "7.0"] 10 (by decide) (by decide) (by norm_num)
    (by
      have h8 : toNumber (JSVal.str "8.0") = JSNum.fin ((8 * unit : Nat) : Int) := by decide
      have h7 : toNumber (JSVal.str "7.0") = JSNum.fin ((7 * unit : Nat) : Int) := by decide
      intro v hv
      simp only [List.mem_cons, List.mem_singleton, List.not_mem_nil, or_false] at hv
      rcases hv with hv | hv <;> subst hv
      · rw [h8, toRat_natUnits]
        exact ⟨rfl, by norm_num⟩
      · rw [h7, toRat_natUnits]
        exact ⟨rfl, by norm_num⟩)

end Popcorn
